import Mathlib

/-!
# Verification of the decorator / caching subsystem of django-auxilium

Shallow embedding of `django_auxilium/utils/functools/cache.py` and
`django_auxilium/utils/functools/decorators.py`.

Python values passed to the cached callables in the verified claims are
integers, strings, booleans and `None`; we embed them as the flat inductive
type `Value`.  Python dictionaries (keyword arguments, the decorator's
`DEFAULTS` mapping, the memoization store, an object's `__dict__`) are
embedded as insertion-ordered association lists with unique keys, which is
exactly the CPython dict semantics restricted to string keys.  Mutation of a
Python object is embedded as explicit state passing.
-/

namespace DjangoAuxilium

/-- A (flat) Python value: the value domain used by the verified claims. -/
inductive Value where
  | int (n : Int)
  | str (s : String)
  | bool (b : Bool)
  | none
deriving DecidableEq, Repr

/-- Python truthiness (`bool(v)`) on the embedded value domain:
`None`, `False`, `0` and `''` are falsy, everything else is truthy. -/
def pyBool : Value → Bool
  | .int n => n ≠ 0
  | .str s => s ≠ ""
  | .bool b => b
  | .none => false

/-- `d[k]` lookup in an insertion-ordered association list (first match). -/
def alookup {α : Type} : List (String × α) → String → Option α
  | [], _ => Option.none
  | (k, v) :: rest, key => if k = key then some v else alookup rest key

/-- `d.pop(k)` / `del d[k]`: remove the first entry with the given key
(association lists with unique keys have at most one). -/
def eraseKey {α : Type} : List (String × α) → String → List (String × α)
  | [], _ => []
  | (k, v) :: rest, key => if k = key then rest else (k, v) :: eraseKey rest key

/-- `d[k] = v`: update in place when the key exists (CPython dicts keep the
original key position), append otherwise. -/
def dictSet {α : Type} : List (String × α) → String → α → List (String × α)
  | [], key, v => [(key, v)]
  | (k, w) :: rest, key, v =>
    if k = key then (k, v) :: rest else (k, w) :: dictSet rest key v

/-! ## Python `repr` on the embedded value domain

`Memoizing._get_key` builds its key with `repr(args) + repr(sorted(kwargs.items()))`
(cache.py lines 138-139).  We embed `repr` for the flat value domain; string
values in the verified claims contain no quotes or backslashes, so the
embedded `repr` of a string is simply the string surrounded by single quotes. -/

/-- Python `repr` of a single value. -/
def pyRepr : Value → String
  | .int n => toString n
  | .str s => "'" ++ s ++ "'"
  | .bool b => if b then "True" else "False"
  | .none => "None"

/-- Python `repr` of the `args` tuple: `()`, `(x,)` or `(x, y, ...)`. -/
def pyReprTuple (args : List Value) : String :=
  match args with
  | [] => "()"
  | [v] => "(" ++ pyRepr v ++ ",)"
  | _ => "(" ++ String.intercalate ", " (args.map pyRepr) ++ ")"

/-- Python `repr` of one `(name, value)` item of `kwargs.items()`. -/
def pyReprItem (kv : String × Value) : String :=
  "(" ++ pyRepr (.str kv.1) ++ ", " ++ pyRepr kv.2 ++ ")"

/-- Python `repr` of a list of `(name, value)` items. -/
def pyReprItemList (items : List (String × Value)) : String :=
  "[" ++ String.intercalate ", " (items.map pyReprItem) ++ "]"

/-- The ordering used by `sorted(kwargs.items())`: compare items by their
name, strings being compared lexicographically by code point (the
character-list lexicographic order).  Python compares the `(name, value)`
tuples lexicographically, but keyword-argument names within one call are
unique, so the comparison never reaches the values and sorting by name alone
is extensionally the same. -/
def itemLE (a b : String × Value) : Prop := a.1.data ≤ b.1.data

instance : DecidableRel itemLE :=
  fun a b => inferInstanceAs (Decidable (a.1.data ≤ b.1.data))

instance : IsTotal (String × Value) itemLE := ⟨fun a b => le_total a.1.data b.1.data⟩

instance : IsTrans (String × Value) itemLE := ⟨fun _ _ _ h1 h2 => le_trans h1 h2⟩

/-- The strict version of `itemLE`, used to reason about sorted item lists
with pairwise-distinct names. -/
def itemLT (a b : String × Value) : Prop := a.1.data < b.1.data

instance : IsAntisymm (String × Value) itemLT :=
  ⟨fun _ _ h1 h2 => absurd h2 (lt_asymm h1)⟩

/-- `sorted(kwargs.items())`: a stable sort of the items by name. -/
def sortedItems (kwargs : List (String × Value)) : List (String × Value) :=
  List.insertionSort itemLE kwargs

namespace Memoizing

/-- `Memoizing._get_key` (cache.py lines 138-139):
`repr(args) + repr(sorted(kwargs.items()))`. -/
def getKey (args : List Value) (kwargs : List (String × Value)) : String :=
  pyReprTuple args ++ pyReprItemList (sortedItems kwargs)

end Memoizing

/-! ## Cache storage strategies (cache.py)

`Caching` stores a single value under an attribute of its `parent` object; we
embed the parent's `__dict__` as an association list from attribute names to
values.  `Memoizing` stores a dict under the attribute; we embed that
attribute's slot directly as `Option (List (String × Value))`, where `none`
models the attribute being absent (the `AttributeError` branch of the
source's `except` clauses). -/

/-- `NotInCache`: the storage layer's miss exception. -/
inductive CacheError where
  | notInCache
deriving DecidableEq, Repr

namespace Caching

/-- `Caching.get` (cache.py lines 88-100): `getattr(self.parent, self.attr)`,
raising `NotInCache` when the attribute is absent.  (`args`/`kwargs` are
ignored by this strategy.) -/
def get (parent : List (String × Value)) (attr : String) : Except CacheError Value :=
  match alookup parent attr with
  | some v => .ok v
  | Option.none => .error .notInCache

/-- `Caching.set` (cache.py lines 102-107): `setattr(self.parent, self.attr, value)`
and return the value. -/
def set (parent : List (String × Value)) (attr : String) (value : Value) :
    Value × List (String × Value) :=
  (value, dictSet parent attr value)

/-- `Caching.delete` (cache.py lines 109-121): `self.parent.__dict__.pop(self.attr)`,
raising `NotInCache` when the attribute is absent; returns the popped value
together with the updated `__dict__`. -/
def delete (parent : List (String × Value)) (attr : String) :
    Except CacheError (Value × List (String × Value)) :=
  match alookup parent attr with
  | some v => .ok (v, eraseKey parent attr)
  | Option.none => .error .notInCache

end Caching

/-- The memoization store: the dict held by the cache attribute, or `none`
when the attribute has not been created yet. -/
abbrev MemoStore := Option (List (String × Value))

namespace Memoizing

/-- `Memoizing.get` (cache.py lines 141-155): compute the key and look it up
in the dict stored on the parent; any of `AttributeError` (absent attribute),
`KeyError` (absent key) is reported as `NotInCache`. -/
def get (store : MemoStore) (args : List Value) (kwargs : List (String × Value)) :
    Except CacheError Value :=
  match store with
  | Option.none => .error .notInCache
  | some d =>
    match alookup d (getKey args kwargs) with
    | some v => .ok v
    | Option.none => .error .notInCache

/-- `Memoizing.set` (cache.py lines 157-169): create the dict if the
attribute is absent, then store the value under the computed key; returns
the value together with the updated store. -/
def set (store : MemoStore) (args : List Value) (kwargs : List (String × Value))
    (value : Value) : Value × MemoStore :=
  let d := store.getD []
  (value, some (dictSet d (getKey args kwargs) value))

/-- `Memoizing.delete` (cache.py lines 171-185): pop the computed key from
the stored dict; an absent attribute or an absent key is reported as
`NotInCache`.  Returns the popped value together with the updated store. -/
def delete (store : MemoStore) (args : List Value) (kwargs : List (String × Value)) :
    Except CacheError (Value × MemoStore) :=
  match store with
  | Option.none => .error .notInCache
  | some d =>
    match alookup d (getKey args kwargs) with
    | some v => .ok (v, some (eraseKey d (getKey args kwargs)))
    | Option.none => .error .notInCache

end Memoizing

/-! ## `CacheDescriptor` (cache.py lines 188-337)

A Python instance is embedded as its `__dict__`; the wrapped method may read
and mutate the instance, so it is embedded as `Inst → Value × Inst`. -/

/-- A host object: its mutable `__dict__`. -/
structure Inst where
  attrs : List (String × Value)
deriving DecidableEq, Repr

/-- `CacheDescriptor`: wraps `method` and stores the cached value on the host
instance under `cacheAttribute`.  The source derives `cacheAttribute` as
`'{name}_cache_{hash}'.format(name=method.__name__, hash=abs(hash(method.__name__)))`
(cache.py lines 256-261); the hash is an interpreter detail, so the derived
name is embedded as an opaque field. -/
structure CacheDescriptor where
  method : Inst → Value × Inst
  cacheAttribute : String
  asProperty : Bool

namespace CacheDescriptor

/-- `CacheDescriptor.getter` (cache.py lines 272-284): return the cached
value when available, otherwise invoke the wrapped method, store its result
in the cache and return it.  `cache.set` is applied to the instance state the
method call produced (in Python both alias the same object). -/
def getter (d : CacheDescriptor) (inst : Inst) : Value × Inst :=
  match Caching.get inst.attrs d.cacheAttribute with
  | .ok v => (v, inst)
  | .error _ =>
    let (v, inst') := d.method inst
    let (v', attrs') := Caching.set inst'.attrs d.cacheAttribute v
    (v', { inst' with attrs := attrs' })

/-- `CacheDescriptor.pop` (cache.py lines 286-293): `cache.delete(...)`,
propagating `NotInCache` unchanged. -/
def pop (d : CacheDescriptor) (inst : Inst) : Except CacheError (Value × Inst) :=
  match Caching.delete inst.attrs d.cacheAttribute with
  | .ok (v, attrs') => .ok (v, { inst with attrs := attrs' })
  | .error e => .error e

/-- `CacheDescriptor.push` (cache.py lines 295-300): `cache.set(value, ...)`. -/
def push (d : CacheDescriptor) (inst : Inst) (value : Value) : Inst :=
  { inst with attrs := (Caching.set inst.attrs d.cacheAttribute value).2 }

/-- Result of an instance attribute access through `__get__`. -/
inductive GetResult where
  | prop (value : Value) (inst : Inst)
  | boundWrapper
deriving DecidableEq, Repr

/-- `CacheDescriptor.__get__` on an instance (cache.py lines 306-320):
in property mode it runs `getter` directly; otherwise it returns the bound
wrapper (exposing the cached call, `pop` and `push`) without touching any
state. -/
def dunderGet (d : CacheDescriptor) (inst : Inst) : GetResult :=
  if d.asProperty then
    let (v, inst') := getter d inst
    .prop v inst'
  else .boundWrapper

/-- Exceptions surfaced by the descriptor protocol methods. -/
inductive PyError where
  | attributeError
  | notInCache
deriving DecidableEq, Repr

/-- `CacheDescriptor.__set__` (cache.py lines 322-331): in property mode
store the assigned value via `cache.set` (the wrapped method is not
involved); otherwise raise `AttributeError`. -/
def dunderSet (d : CacheDescriptor) (inst : Inst) (value : Value) :
    Except PyError Inst :=
  if d.asProperty then .ok (push d inst value)
  else .error .attributeError

/-- `CacheDescriptor.__delete__` (cache.py lines 333-337): in property mode
evict via `pop` (propagating `NotInCache`); otherwise raise
`AttributeError`. -/
def dunderDelete (d : CacheDescriptor) (inst : Inst) : Except PyError Inst :=
  if d.asProperty then
    match pop d inst with
    | .ok (_, inst') => .ok inst'
    | .error _ => .error .notInCache
  else .error .attributeError

end CacheDescriptor

/-! ## `BaseCacheDecorator` wrapping a standalone function (cache.py lines 423-463)

For a standalone function the decorator stores the cache on itself:
`self.cache = self.cache_class(self, 'cached_value')`.  The wrapped callable
may touch external mutable state; it is embedded as
`List Value → List (String × Value) → σ → Value × σ` over an abstract world
`σ`, so that an invocation of the callable is observable as an application to
the world. -/

/-- The attribute name the standalone-function cache lives under. -/
def cachedValueAttr : String := "cached_value"

/-- State of a `CacheDecorator`-decorated standalone function: the decorator
instance's `__dict__` plus the world the wrapped callable acts on. -/
structure FreeCacheState (σ : Type) where
  decAttrs : List (String × Value)
  world : σ
deriving DecidableEq

namespace CacheDecorator

/-- The `wrapper` closure of `BaseCacheDecorator.get_wrapped_object`
(cache.py lines 449-457) with the single-value `Caching` strategy: try the
cache, and on `NotInCache` invoke the wrapped callable and store its result. -/
def wrapper {σ : Type} (f : List Value → List (String × Value) → σ → Value × σ)
    (args : List Value) (kwargs : List (String × Value)) (st : FreeCacheState σ) :
    Value × FreeCacheState σ :=
  match Caching.get st.decAttrs cachedValueAttr with
  | .ok v => (v, st)
  | .error _ =>
    let (v, w') := f args kwargs st.world
    let (v', attrs') := Caching.set st.decAttrs cachedValueAttr v
    (v', ⟨attrs', w'⟩)

/-- `BaseCacheDecorator.pop` (cache.py lines 459-463): `self.cache.delete(...)`,
propagating `NotInCache` unchanged. -/
def pop {σ : Type} (st : FreeCacheState σ) :
    Except CacheError (Value × FreeCacheState σ) :=
  match Caching.delete st.decAttrs cachedValueAttr with
  | .ok (v, attrs') => .ok (v, { st with decAttrs := attrs' })
  | .error e => .error e

end CacheDecorator

/-- State of a `MemoizeDecorator`-decorated standalone function. -/
structure FreeMemoState (σ : Type) where
  store : MemoStore
  world : σ
deriving DecidableEq

namespace MemoizeDecorator

/-- The `wrapper` closure of `BaseCacheDecorator.get_wrapped_object`
(cache.py lines 449-457) with the `Memoizing` strategy. -/
def wrapper {σ : Type} (f : List Value → List (String × Value) → σ → Value × σ)
    (args : List Value) (kwargs : List (String × Value)) (st : FreeMemoState σ) :
    Value × FreeMemoState σ :=
  match Memoizing.get st.store args kwargs with
  | .ok v => (v, st)
  | .error _ =>
    let (v, w') := f args kwargs st.world
    let (v', store') := Memoizing.set st.store args kwargs v
    (v', ⟨store', w'⟩)

/-- `BaseCacheDecorator.pop` with the `Memoizing` strategy. -/
def pop {σ : Type} (args : List Value) (kwargs : List (String × Value))
    (st : FreeMemoState σ) : Except CacheError (Value × FreeMemoState σ) :=
  match Memoizing.delete st.store args kwargs with
  | .ok (v, store') => .ok (v, { st with store := store' })
  | .error e => .error e

end MemoizeDecorator

/-! ## The wrap-time `in_class` classification -/

/-- Modelled from the spec: the parameter-name-based `is_in_class` of the
newer `HybridDecorator` is not under `src/` — `cache.py` relies on it (its
`as_decorator`/`is_method` interface) and `tests/utils/functools/test_decorators.py`
exercises it, while the `decorators.py` present under `src/` is an earlier
snapshot.  Per spec §4.1 the target is classified as a method exactly when an
explicit `is_method` flag says so, or, absent the flag, when the target
function's first declared parameter is one of the names conventionally used
for `self`/`cls` bindings. -/
def isInClass (paramNames : List String) (isMethodFlag : Option Bool) : Bool :=
  match isMethodFlag with
  | some b => b
  | Option.none =>
    match paramNames with
    | first :: _ => first = "self" || first = "cls"
    | [] => false

/-- The two shapes `BaseCacheDecorator.get_wrapped_object` can return. -/
inductive WrappedObject where
  | descriptor
  | standaloneWrapper
deriving DecidableEq, Repr

/-- The dispatch of `BaseCacheDecorator.get_wrapped_object` (cache.py lines
441-457): a per-instance cache descriptor when `in_class`, else the
standalone-function wrapper whose cache lives on the decorator instance. -/
def BaseCacheDecorator.dispatch (inClass : Bool) : WrappedObject :=
  if inClass then .descriptor else .standaloneWrapper

/-- The full wrap-time decision for a cache decorator: classify the target,
then dispatch on the classification. -/
def BaseCacheDecorator.wrapTarget (paramNames : List String)
    (isMethodFlag : Option Bool) : WrappedObject :=
  BaseCacheDecorator.dispatch (isInClass paramNames isMethodFlag)

/-! ## `Decorator` parameter machinery (decorators.py lines 11-397)

Parameter declarations are the literal strings of the `PARAMETERS` tuple
(`"name"`, `"*args"`, `"**kwargs"`); `DEFAULTS` is a dict keyed by parameter
name.  The string predicates below embed the source's `str.startswith`,
slicing, `str.replace` and the two anchored regular expressions. -/

/-- `p.startswith('*')`. -/
def isStarred (p : String) : Bool := p.data.head? = some '*'

/-- `p[n:]` for a non-negative `n`. -/
def dropChars (n : Nat) (p : String) : String := ⟨p.data.drop n⟩

/-- `p.replace('*', '')`: remove every `*` character. -/
def stripStars (p : String) : String := ⟨p.data.filter (fun c => c ≠ '*')⟩

/-- A `\w` character of the source's regexes: `[A-Za-z0-9_]`
(Python 2 `re` without `re.UNICODE` is ASCII-only, as are Lean's
`Char.isAlphanum`/`Char.isAlpha`). -/
def isIdentChar (c : Char) : Bool := c.isAlphanum || c = '_'

/-- A `[A-Za-z_]` character. -/
def isIdentStart (c : Char) : Bool := c.isAlpha || c = '_'

/-- Full match of `^[A-Za-z_]\w*$` on a character list. -/
def isNormalIdentChars : List Char → Bool
  | [] => false
  | c :: cs => isIdentStart c && cs.all isIdentChar

/-- `identifier_re_normal.findall(p)` is non-empty: `p` fully matches
`^[A-Za-z_]\w*$`. -/
def isNormalIdent (p : String) : Bool := isNormalIdentChars p.data

/-- `identifier_re_arbitrary.findall(p)` is non-empty: `p` fully matches
`^(?:\*{1,2})?[A-Za-z_]\w*$` — the greedy optional prefix of one or two
`*` characters followed by a plain identifier. -/
def isArbitraryIdent (p : String) : Bool :=
  match p.data with
  | [] => false
  | c :: rest =>
    if c = '*' then
      match rest with
      | [] => false
      | c2 :: rest2 =>
        if c2 = '*' then isNormalIdentChars rest2 else isNormalIdentChars rest
    else isNormalIdentChars (c :: rest)

/-- The `SyntaxError` conditions of `Decorator.validate_parameter_config`,
tagged by the source's messages. -/
inductive ConfigError where
  /-- `'Cannot redefine the same parameter'` -/
  | redefinedParameter
  /-- `'Invalid identifier name "..."'` -/
  | invalidIdentifier (name : String)
  /-- `'*args have to be before **kwargs'` -/
  | starArgsOrder
  /-- `'*args or **kwargs cannot be before regular parameters'` -/
  | collectorBeforeRegular
  /-- `'Defaults must be defined in parameters attribute'` -/
  | defaultsNotInParameters
  /-- `'Invalid syntax for default parameter'` -/
  | invalidDefaultSyntax
  /-- `'Optional parameter before required parameter'` -/
  | optionalBeforeRequired
deriving DecidableEq, Repr

namespace Decorator

/-- The identifier-syntax loop of `validate_parameter_config` (decorators.py
lines 191-199): entry `i` of `PARAMETERS` must match the normal identifier
regex when `i < len(PARAMETERS) - 2` (Python integer arithmetic; over `Nat`
this is `i + 2 < total`) and the arbitrary one otherwise. -/
def checkIdentifiers (total : Nat) : List String → Nat → Except ConfigError Unit
  | [], _ => .ok ()
  | p :: rest, i =>
    if (if i + 2 < total then isNormalIdent p else isArbitraryIdent p) then
      checkIdentifiers total rest (i + 1)
    else .error (.invalidIdentifier p)

/-- The `*args`/`**kwargs` placement check of `validate_parameter_config`
(decorators.py lines 201-213), applied to `PARAMETERS[-2:]`. -/
def checkCollectors (PARAMETERS : List String) : Except ConfigError Unit :=
  match PARAMETERS.drop (PARAMETERS.length - 2) with
  | [a, b] =>
    if isStarred a && isStarred b then
      if isStarred (dropChars 1 a) || !(isStarred (dropChars 1 b)) then
        .error .starArgsOrder
      else .ok ()
    else if isStarred a then .error .collectorBeforeRegular
    else .ok ()
  | _ => .ok ()

/-- The `DEFAULTS` key check of `validate_parameter_config` (decorators.py
lines 215-220), iterating the keys in dict order. -/
def checkDefaults (PARAMETERS : List String) :
    List (String × Value) → Except ConfigError Unit
  | [] => .ok ()
  | (k, _) :: rest =>
    if !(PARAMETERS.contains k) then .error .defaultsNotInParameters
    else if isStarred k then .error .invalidDefaultSyntax
    else checkDefaults PARAMETERS rest

/-- The optional-after-required check of `validate_parameter_config`
(decorators.py lines 225-233): walk `PARAMETERS`, skip collectors, flip the
flag at the first name with a default, and fail on a later name without one. -/
def checkOptionalOrder (DEFAULTS : List (String × Value)) :
    List String → Bool → Except ConfigError Unit
  | [], _ => .ok ()
  | p :: rest, optional =>
    if isStarred p then checkOptionalOrder DEFAULTS rest optional
    else if (alookup DEFAULTS p).isSome then checkOptionalOrder DEFAULTS rest true
    else if optional then .error .optionalBeforeRequired
    else checkOptionalOrder DEFAULTS rest false

/-- `Decorator.validate_parameter_config` (decorators.py lines 145-233): the
duplicate check over star-stripped identifiers, the identifier-syntax loop,
the collector-placement check, the `DEFAULTS` key checks, and — only when
`DEFAULTS` is non-empty — the optional-after-required check, in source
order. -/
def validate_parameter_config (PARAMETERS : List String)
    (DEFAULTS : List (String × Value)) : Except ConfigError Unit :=
  let identifiers := PARAMETERS.map stripStars
  if identifiers.dedup.length < identifiers.length then
    .error .redefinedParameter
  else
    match checkIdentifiers PARAMETERS.length PARAMETERS 0 with
    | .error e => .error e
    | .ok _ =>
      match checkCollectors PARAMETERS with
      | .error e => .error e
      | .ok _ =>
        match checkDefaults PARAMETERS DEFAULTS with
        | .error e => .error e
        | .ok _ =>
          if DEFAULTS.isEmpty then .ok ()
          else checkOptionalOrder DEFAULTS PARAMETERS false

end Decorator

/-- A value bound to a declared parameter name by `get_parameters`: a plain
value, the tuple collected by `*args`, or the dict collected by `**kwargs`. -/
inductive BoundVal where
  | v (x : Value)
  | varargs (xs : List Value)
  | varkwargs (m : List (String × Value))
deriving DecidableEq, Repr

/-- The failure conditions of `Decorator.get_parameters`, tagged by the
source's messages. -/
inductive BindError where
  /-- `TypeError('Too many arguments')` -/
  | tooManyArguments
  /-- `TypeError('"..." argument is not provided')` -/
  | argumentNotProvided (name : String)
  /-- `SyntaxError('"..." parameter is repeated')` -/
  | parameterRepeated (name : String)
deriving DecidableEq, Repr

namespace Decorator

/-- `params_to_set` (decorators.py line 278): the non-collector names. -/
def paramsToSet (PARAMETERS : List String) : List String :=
  PARAMETERS.filter (fun p => !isStarred p)

/-- `args_parameter` (decorators.py lines 281-283): the name of the first
single-star collector, without its star. -/
def argsParameter (PARAMETERS : List String) : Option String :=
  (((PARAMETERS.filter isStarred).filter
      (fun p => isStarred p && !isStarred (dropChars 1 p))).head?).map (dropChars 1)

/-- `kwargs_parameter` (decorators.py lines 284-285): the name of the first
double-star collector, without its stars. -/
def kwargsParameter (PARAMETERS : List String) : Option String :=
  (((PARAMETERS.filter isStarred).filter
      (fun p => p.data.take 2 == ['*', '*'])).head?).map (dropChars 2)

/-- The keyword/defaults loop of `get_parameters` (decorators.py lines
303-313), threading the `parameters` dict, the mutable `kwargs` dict
(`kwargs.pop(p)`) and the `params_set` list. -/
def resolveRemaining (DEFAULTS : List (String × Value)) :
    List String → List (String × BoundVal) → List (String × Value) → List String →
    Except BindError (List (String × BoundVal) × List (String × Value) × List String)
  | [], parameters, kwargs, params_set => .ok (parameters, kwargs, params_set)
  | p :: rest, parameters, kwargs, params_set =>
    match alookup kwargs p with
    | some x =>
      resolveRemaining DEFAULTS rest (dictSet parameters p (.v x))
        (eraseKey kwargs p) (params_set ++ [p])
    | Option.none =>
      match alookup DEFAULTS p with
      | some x =>
        resolveRemaining DEFAULTS rest (dictSet parameters p (.v x))
          kwargs (params_set ++ [p])
      | Option.none => .error (.argumentNotProvided p)

/-- `Decorator.get_parameters` (decorators.py lines 235-325): bind the
positional arguments to the non-collector names in declaration order, hand
the positional overflow to the `*args` collector (or fail), resolve the
remaining names from `kwargs` and `DEFAULTS` (or fail), and hand the
leftover keywords to the `**kwargs` collector after checking that none of
them rebinds an already-set name.  (On a spec with duplicate declared names
— which `validate_parameter_config` rejects — the embedded initial
`parameters` keeps the first of the clashing positional bindings where the
Python dict keeps the last; all uses are behind that validation.) -/
def get_parameters (PARAMETERS : List String) (DEFAULTS : List (String × Value))
    (args : List Value) (kwargs : List (String × Value)) :
    Except BindError (List (String × BoundVal)) :=
  let params_to_set := paramsToSet PARAMETERS
  let args_to_set := min params_to_set.length args.length
  let params_set := params_to_set.take args_to_set
  let parameters : List (String × BoundVal) :=
    (params_set.zip (args.take args_to_set)).map (fun kv => (kv.1, BoundVal.v kv.2))
  let remaining := params_set.foldl (fun l p => l.erase p) params_to_set
  let step1 : Except BindError (List (String × BoundVal)) :=
    if args_to_set < args.length then
      match argsParameter PARAMETERS with
      | some ap => .ok (dictSet parameters ap (.varargs (args.drop args_to_set)))
      | Option.none => .error BindError.tooManyArguments
    else .ok parameters
  match step1 with
  | .error e => .error e
  | .ok parameters =>
    match resolveRemaining DEFAULTS remaining parameters kwargs params_set with
    | .error e => .error e
    | .ok (parameters, kwargs, params_set) =>
      if kwargs.isEmpty then .ok parameters
      else
        match kwargs.find? (fun kv => params_set.contains kv.1) with
        | some kv => .error (.parameterRepeated kv.1)
        | Option.none =>
          match kwargsParameter PARAMETERS with
          | some kp => .ok (dictSet parameters kp (.varkwargs kwargs))
          | Option.none => .error BindError.tooManyArguments

end Decorator

/-- The construction-time errors of a `Decorator` instance. -/
inductive DecoratorError where
  | config (e : ConfigError)
  | bind (e : BindError)
deriving DecidableEq, Repr

/-- `Decorator.__init__` (decorators.py lines 135-137): validate the
parameter configuration, then parse the construction arguments. -/
def Decorator.init (PARAMETERS : List String) (DEFAULTS : List (String × Value))
    (args : List Value) (kwargs : List (String × Value)) :
    Except DecoratorError (List (String × BoundVal)) :=
  match Decorator.validate_parameter_config PARAMETERS DEFAULTS with
  | .error e => .error (.config e)
  | .ok _ =>
    match Decorator.get_parameters PARAMETERS DEFAULTS args kwargs with
    | .error e => .error (.bind e)
    | .ok ps => .ok ps

/-! ## The legacy `Cache` decorator of decorators.py (lines 458-554)

Its standalone-function wrapper (decorators.py lines 507-527) recognizes the
configurable `recompute` override keyword: the flag is popped from `kwargs`
(so it is never forwarded to the wrapped callable) and a truthy value forces
recomputation and overwrite.  `in_cache` is `bool(cache)` and `to_cache`
overwrites `self.cache`. -/

namespace Legacy

/-- The configuration slice of the legacy `Cache.DEFAULTS` relevant to the
wrapper: `recompute_parameter` (default `'recompute'`) and `recompute`
(default `False`). -/
structure CacheConfig where
  recomputeParameter : String
  recomputeDefault : Value
deriving DecidableEq, Repr

/-- The source's default configuration. -/
def defaultCacheConfig : CacheConfig := ⟨"recompute", .bool false⟩

/-- State of a legacy-`Cache`-decorated standalone function: `self.cache`
(initialized to `default_cache_value`, `None`) plus the world of the wrapped
callable. -/
structure CacheState (σ : Type) where
  cache : Value
  world : σ
deriving DecidableEq

/-- The `wrapper` closure of the legacy `Cache.get_wrapped_object`
(decorators.py lines 507-527) on the standalone-function path. -/
def cacheWrapper {σ : Type} (cfg : CacheConfig)
    (f : List Value → List (String × Value) → σ → Value × σ)
    (args : List Value) (kwargs : List (String × Value))
    (st : CacheState σ) : Value × CacheState σ :=
  let recompute := (alookup kwargs cfg.recomputeParameter).getD cfg.recomputeDefault
  let kwargs := eraseKey kwargs cfg.recomputeParameter
  if !(pyBool recompute) && pyBool st.cache then (st.cache, st)
  else
    let (value, w') := f args kwargs st.world
    (value, ⟨value, w'⟩)

end Legacy

/-! ## Per-instance memoization (MemoizeDescriptor, cache.py lines 340-396)

`MemoizeDescriptor` reuses `CacheDescriptor.getter`/`pop`/`push` with the
`Memoizing` strategy; the state it manipulates is the per-instance
memoization store.  For these operations the wrapped method is embedded as a
pure function of the call arguments (`self` is the fixed host instance). -/

namespace MemoizeDescriptor

/-- `CacheDescriptor.getter` with the `Memoizing` strategy: return the
memoized value for the call arguments, or invoke the method and store its
result. -/
def getter (g : List Value → List (String × Value) → Value)
    (args : List Value) (kwargs : List (String × Value)) (store : MemoStore) :
    Value × MemoStore :=
  match Memoizing.get store args kwargs with
  | .ok v => (v, store)
  | .error _ => Memoizing.set store args kwargs (g args kwargs)

/-- `CacheDescriptor.pop` with the `Memoizing` strategy. -/
def pop (args : List Value) (kwargs : List (String × Value)) (store : MemoStore) :
    Except CacheError (Value × MemoStore) :=
  Memoizing.delete store args kwargs

/-- `CacheDescriptor.push` with the `Memoizing` strategy. -/
def push (value : Value) (args : List Value) (kwargs : List (String × Value))
    (store : MemoStore) : MemoStore :=
  (Memoizing.set store args kwargs value).2

end MemoizeDescriptor

/-- Whether the memoization store holds an entry for the given call. -/
def Memoizing.hasEntry (store : MemoStore) (args : List Value)
    (kwargs : List (String × Value)) : Bool :=
  match store with
  | Option.none => false
  | some d => (alookup d (Memoizing.getKey args kwargs)).isSome

/-! ## Operation sequences over sibling instances (for cache isolation) -/

/-- One cache operation performed through the per-instance bound wrapper of a
single-value cache descriptor: the cached call, `push` or `pop`. -/
inductive CacheOp where
  | call
  | push (value : Value)
  | pop
deriving DecidableEq, Repr

/-- Apply one operation to the host instance.  A failed `pop` raises
`NotInCache` before mutating anything, so it leaves the instance unchanged. -/
def applyOp (d : CacheDescriptor) : CacheOp → Inst → Inst
  | .call, inst => (CacheDescriptor.getter d inst).2
  | .push v, inst => CacheDescriptor.push d inst v
  | .pop, inst =>
    match CacheDescriptor.pop d inst with
    | .ok r => r.2
    | .error _ => inst

/-- One memoize operation through the per-instance bound wrapper. -/
inductive MemoOp where
  | call (args : List Value) (kwargs : List (String × Value))
  | push (value : Value) (args : List Value) (kwargs : List (String × Value))
  | pop (args : List Value) (kwargs : List (String × Value))
deriving DecidableEq, Repr

/-- Apply one memoize operation to the per-instance store. -/
def memoApplyOp (g : List Value → List (String × Value) → Value) :
    MemoOp → MemoStore → MemoStore
  | .call args kwargs, s => (MemoizeDescriptor.getter g args kwargs s).2
  | .push v args kwargs, s => MemoizeDescriptor.push v args kwargs s
  | .pop args kwargs, s =>
    match MemoizeDescriptor.pop args kwargs s with
    | .ok r => r.2
    | .error _ => s

/-- Apply a sequence of operations to a single piece of per-instance state. -/
def applySeq {τ ω : Type} (step : ω → τ → τ) : List ω → τ → τ
  | [], s => s
  | op :: ops, s => applySeq step ops (step op s)

/-- An operation addressed to one of two sibling instances of the same
class. -/
inductive Targeted (ω : Type) where
  | onFirst (op : ω)
  | onSecond (op : ω)

/-- Apply one addressed operation to the pair of per-instance states. -/
def applyTargeted {τ ω : Type} (step : ω → τ → τ) : Targeted ω → τ × τ → τ × τ
  | .onFirst op, (a, b) => (step op a, b)
  | .onSecond op, (a, b) => (a, step op b)

/-- Apply an interleaved sequence of addressed operations. -/
def applyTargetedSeq {τ ω : Type} (step : ω → τ → τ) :
    List (Targeted ω) → τ × τ → τ × τ
  | [], w => w
  | op :: ops, w => applyTargetedSeq step ops (applyTargeted step op w)

/-- The sub-sequence of operations addressed to the second instance. -/
def selectSecond {ω : Type} : List (Targeted ω) → List ω
  | [] => []
  | .onFirst _ :: ops => selectSecond ops
  | .onSecond op :: ops => op :: selectSecond ops

/-! ## The spec's end-to-end fixture

A class `Foo` whose zero-argument method `foo` increments `self.counter` and
returns it, decorated with the single-value cache; the host instance starts
with `counter = 5`. -/

/-- `Foo.foo`: `self.counter += 1; return self.counter`. -/
def fooMethod : Inst → Value × Inst := fun inst =>
  match alookup inst.attrs "counter" with
  | some (.int n) => (.int (n + 1), ⟨dictSet inst.attrs "counter" (.int (n + 1))⟩)
  | _ => (.none, inst)

/-- `foo` wrapped by `CacheDescriptor` in method-call mode; the hash-suffixed
cache attribute name is abstracted as a fixed string. -/
def fooDescriptor : CacheDescriptor := ⟨fooMethod, "foo_cache_h", false⟩

/-- `foo` wrapped by `CacheDescriptor` in property mode. -/
def fooPropDescriptor : CacheDescriptor := ⟨fooMethod, "foo_cache_h", true⟩

/-- The host instance with initial `counter = 5`. -/
def fooInst : Inst := ⟨[("counter", .int 5)]⟩

/-- The host instance after the first cached call: `counter = 6`, cached
value `6`. -/
def fooInstCached : Inst := ⟨[("counter", .int 6), ("foo_cache_h", .int 6)]⟩

/-- The host instance after evicting: `counter = 6`, no cached value. -/
def fooInstEvicted : Inst := ⟨[("counter", .int 6)]⟩

/-- A wrapped callable over an integer world that counts its own
invocations: returns the incremented counter and the incremented world. -/
def incrWorld : List Value → List (String × Value) → Int → Value × Int :=
  fun _ _ n => (.int (n + 1), n + 1)

/-! ## Structurally valid parameter specifications (for C4/C5)

Spec §3: a valid Parameter Specification lists required names, then optional
names (exactly the keys of `DEFAULTS`, in order), then at most one `*args`
collector, then at most one `**kwargs` collector; names are unique, plain
identifiers. -/

/-- The structural shape of a valid parameter specification. -/
structure SpecShape where
  required : List String
  optional : List (String × Value)
  argsCollector : Option String
  kwargsCollector : Option String

namespace SpecShape

/-- The declared optional names, in order. -/
def optionalNames (s : SpecShape) : List String := s.optional.map Prod.fst

/-- The declared non-collector names, in order. -/
def namedParams (s : SpecShape) : List String := s.required ++ s.optionalNames

/-- Base names of the declared collectors, in order. -/
def collectorNames (s : SpecShape) : List String :=
  s.argsCollector.toList ++ s.kwargsCollector.toList

/-- The `PARAMETERS` tuple the shape declares (`"name"`, `"*args"`,
`"**kwargs"`). -/
def PARAMETERS (s : SpecShape) : List String :=
  s.namedParams
    ++ (s.argsCollector.map (fun a => String.mk ('*' :: a.data))).toList
    ++ (s.kwargsCollector.map (fun a => String.mk ('*' :: '*' :: a.data))).toList

/-- The `DEFAULTS` dict the shape declares. -/
def DEFAULTS (s : SpecShape) : List (String × Value) := s.optional

/-- Structural validity: every base name is a plain identifier and all base
names are pairwise distinct. -/
def Valid (s : SpecShape) : Prop :=
  (∀ p ∈ s.namedParams ++ s.collectorNames, isNormalIdent p = true) ∧
  (s.namedParams ++ s.collectorNames).Nodup

instance (s : SpecShape) : Decidable s.Valid :=
  inferInstanceAs (Decidable (_ ∧ _))

/-! Shape conditions of a call (spec §3 Bound Parameters): these spell out
when call-time arguments match a spec's shape. -/

/-- Positional arguments beyond the named parameters require a declared
`*args` collector. -/
def NoPositionalOverflow (s : SpecShape) (args : List Value) : Prop :=
  args.length ≤ s.namedParams.length ∨ s.argsCollector.isSome

/-- Every named parameter not matched positionally is supplied by keyword or
has a default. -/
def RequiredCovered (s : SpecShape) (args : List Value)
    (kwargs : List (String × Value)) : Prop :=
  ∀ p ∈ s.namedParams.drop (min s.namedParams.length args.length),
    p ∈ kwargs.map Prod.fst ∨ p ∈ s.optionalNames

/-- No name is supplied both positionally and by keyword. -/
def NoDuplicateSupply (s : SpecShape) (args : List Value)
    (kwargs : List (String × Value)) : Prop :=
  ∀ p ∈ s.namedParams.take (min s.namedParams.length args.length),
    p ∉ kwargs.map Prod.fst

/-- Keyword arguments that match no named parameter require a declared
`**kwargs` collector. -/
def NoUnexpectedKwargs (s : SpecShape) (kwargs : List (String × Value)) : Prop :=
  (∃ k ∈ kwargs.map Prod.fst, k ∉ s.namedParams) → s.kwargsCollector.isSome

/-- The manually computed expectation for one bound parameter (spec §3):
positionals matched to named parameters in declaration order, then keywords,
then defaults; positional overflow to the `*args` collector and keyword
overflow to the `**kwargs` collector. -/
def expectedBinding (s : SpecShape) (args : List Value)
    (kwargs : List (String × Value)) (n : String) : Option BoundVal :=
  let named := s.namedParams
  let leftover := kwargs.filter (fun kv => !(named.contains kv.1))
  if named.contains n then
    match alookup (named.zip args) n with
    | some v => some (.v v)
    | Option.none =>
      match alookup kwargs n with
      | some v => some (.v v)
      | Option.none => (alookup s.optional n).map BoundVal.v
  else if s.argsCollector = some n ∧ named.length < args.length then
    some (.varargs (args.drop named.length))
  else if s.kwargsCollector = some n ∧ leftover ≠ [] then
    some (.varkwargs leftover)
  else Option.none

end SpecShape

/-! ## Facts about the embedded dict operations -/

@[simp] theorem alookup_nil {α : Type} (key : String) :
    alookup ([] : List (String × α)) key = Option.none := rfl

@[simp] theorem alookup_cons {α : Type} (k : String) (v : α) (rest : List (String × α))
    (key : String) :
    alookup ((k, v) :: rest) key = if k = key then some v else alookup rest key := rfl

@[simp] theorem eraseKey_nil {α : Type} (key : String) :
    eraseKey ([] : List (String × α)) key = [] := rfl

@[simp] theorem eraseKey_cons {α : Type} (k : String) (v : α) (rest : List (String × α))
    (key : String) :
    eraseKey ((k, v) :: rest) key =
      if k = key then rest else (k, v) :: eraseKey rest key := rfl

/-- A key is bound iff it occurs among the keys of the association list. -/
theorem alookup_isSome_iff {α : Type} (m : List (String × α)) (key : String) :
    (alookup m key).isSome ↔ key ∈ m.map Prod.fst := by
  induction m with
  | nil => simp
  | cons kv rest ih =>
    obtain ⟨k, v⟩ := kv
    simp only [alookup_cons, List.map_cons, List.mem_cons]
    by_cases h : k = key
    · subst h
      simp
    · rw [if_neg h, ih]
      constructor
      · exact Or.inr
      · rintro (h1 | hm)
        · exact absurd h1.symm h
        · exact hm

theorem alookup_eq_none_iff {α : Type} (m : List (String × α)) (key : String) :
    alookup m key = Option.none ↔ key ∉ m.map Prod.fst := by
  rw [← alookup_isSome_iff]
  cases alookup m key <;> simp

/-- Erasing a key the list does not bind is a no-op. -/
theorem eraseKey_of_not_mem {α : Type} {m : List (String × α)} {key : String}
    (h : key ∉ m.map Prod.fst) : eraseKey m key = m := by
  induction m with
  | nil => rfl
  | cons kv rest ih =>
    obtain ⟨k, v⟩ := kv
    simp only [List.map_cons, List.mem_cons] at h
    push_neg at h
    rw [eraseKey_cons, if_neg (Ne.symm h.1), ih h.2]

/-- Lookup of a different key is unaffected by `eraseKey`. -/
theorem alookup_eraseKey_of_ne {α : Type} (m : List (String × α)) {key k : String}
    (h : k ≠ key) : alookup (eraseKey m key) k = alookup m k := by
  induction m with
  | nil => rfl
  | cons kv rest ih =>
    obtain ⟨k', v⟩ := kv
    rw [eraseKey_cons]
    by_cases hk : k' = key
    · subst hk
      rw [if_pos rfl, alookup_cons, if_neg (Ne.symm h)]
    · rw [if_neg hk, alookup_cons, alookup_cons, ih]

@[simp] theorem dictSet_nil {α : Type} (key : String) (v : α) :
    dictSet ([] : List (String × α)) key v = [(key, v)] := rfl

@[simp] theorem dictSet_cons {α : Type} (k : String) (w : α) (rest : List (String × α))
    (key : String) (v : α) :
    dictSet ((k, w) :: rest) key v =
      if k = key then (k, v) :: rest else (k, w) :: dictSet rest key v := rfl

/-- After `d[k] = v`, looking up `k` yields `v`. -/
theorem alookup_dictSet_self {α : Type} (m : List (String × α)) (k : String) (v : α) :
    alookup (dictSet m k v) k = some v := by
  induction m with
  | nil => simp
  | cons kv rest ih =>
    obtain ⟨k', w⟩ := kv
    by_cases hk : k' = k <;> simp [hk, ih]

/-- `d[k] = v` does not change the binding of any other key. -/
theorem alookup_dictSet_of_ne {α : Type} (m : List (String × α)) {k key : String}
    (h : k ≠ key) (v : α) : alookup (dictSet m key v) k = alookup m k := by
  induction m with
  | nil => simp [Ne.symm h]
  | cons kv rest ih =>
    obtain ⟨k', w⟩ := kv
    by_cases hk : k' = key
    · subst hk
      simp [Ne.symm h]
    · by_cases hk2 : k' = k
      · subst hk2
        rw [dictSet_cons, if_neg hk, alookup_cons, if_pos rfl, alookup_cons, if_pos rfl]
      · rw [dictSet_cons, if_neg hk, alookup_cons, if_neg hk2, alookup_cons, if_neg hk2, ih]

/-- Setting an absent key appends the new entry. -/
theorem dictSet_of_not_bound {α : Type} {m : List (String × α)} {k : String}
    (h : alookup m k = Option.none) (v : α) : dictSet m k v = m ++ [(k, v)] := by
  induction m with
  | nil => rfl
  | cons kv rest ih =>
    obtain ⟨k', w⟩ := kv
    rw [alookup_cons] at h
    by_cases hk : k' = k
    · rw [if_pos hk] at h
      cases h
    · rw [if_neg hk] at h
      simp [hk, ih h]

/-- Popping a key that occurs only as the final entry restores the rest. -/
theorem eraseKey_append_single {α : Type} {m : List (String × α)} {k : String}
    (h : alookup m k = Option.none) (v : α) : eraseKey (m ++ [(k, v)]) k = m := by
  induction m with
  | nil => simp
  | cons kv rest ih =>
    obtain ⟨k', w⟩ := kv
    rw [alookup_cons] at h
    by_cases hk : k' = k
    · rw [if_pos hk] at h
      cases h
    · rw [if_neg hk] at h
      simp [hk, ih h]

/-- Popping a freshly set, previously absent key restores the original dict. -/
theorem eraseKey_dictSet_of_not_bound {α : Type} {m : List (String × α)} {k : String}
    (h : alookup m k = Option.none) (v : α) : eraseKey (dictSet m k v) k = m := by
  rw [dictSet_of_not_bound h, eraseKey_append_single h]

/-! ## C1: single-value cache lifecycle -/

/-- **C1**: For a function decorated with the single-value cache decorator,
calling it twice with no arguments invokes the underlying computation exactly
once: the first call applies the wrapped callable once to the world and
stores its result, the second call returns the stored value with all state
unchanged.  After an evict (which returns the evicted value) the next call
invokes the computation again.  Concretely, for the counter-incrementing
zero-argument method with initial counter 5, the sequence call, call, evict,
call yields 6, 6, 6, 7. -/
theorem cache_decorator_call_call_evict_call
    {σ : Type} (f : List Value → List (String × Value) → σ → Value × σ)
    (w0 : σ) (dec0 : List (String × Value))
    (h : alookup dec0 cachedValueAttr = Option.none) :
    CacheDecorator.wrapper f [] [] ⟨dec0, w0⟩
      = ((f [] [] w0).1,
         ⟨dictSet dec0 cachedValueAttr (f [] [] w0).1, (f [] [] w0).2⟩) ∧
    CacheDecorator.wrapper f [] []
        ⟨dictSet dec0 cachedValueAttr (f [] [] w0).1, (f [] [] w0).2⟩
      = ((f [] [] w0).1,
         ⟨dictSet dec0 cachedValueAttr (f [] [] w0).1, (f [] [] w0).2⟩) ∧
    CacheDecorator.pop (σ := σ)
        ⟨dictSet dec0 cachedValueAttr (f [] [] w0).1, (f [] [] w0).2⟩
      = .ok ((f [] [] w0).1, ⟨dec0, (f [] [] w0).2⟩) ∧
    CacheDecorator.wrapper f [] [] ⟨dec0, (f [] [] w0).2⟩
      = ((f [] [] (f [] [] w0).2).1,
         ⟨dictSet dec0 cachedValueAttr (f [] [] (f [] [] w0).2).1,
          (f [] [] (f [] [] w0).2).2⟩) ∧
    CacheDescriptor.getter fooDescriptor fooInst = (.int 6, fooInstCached) ∧
    CacheDescriptor.getter fooDescriptor fooInstCached = (.int 6, fooInstCached) ∧
    CacheDescriptor.pop fooDescriptor fooInstCached = .ok (.int 6, fooInstEvicted) ∧
    (CacheDescriptor.getter fooDescriptor fooInstEvicted).1 = .int 7 := by
  rcases hf : f [] [] w0 with ⟨v1, w1⟩
  rcases hf2 : f [] [] w1 with ⟨v2, w2⟩
  refine ⟨?_, ?_, ?_, ?_, rfl, rfl, rfl, rfl⟩
  · simp [CacheDecorator.wrapper, Caching.get, h, Caching.set, hf]
  · simp [CacheDecorator.wrapper, Caching.get, Caching.set, hf,
      alookup_dictSet_self]
  · simp [CacheDecorator.pop, Caching.delete, hf, alookup_dictSet_self,
      eraseKey_dictSet_of_not_bound h]
  · simp [CacheDecorator.wrapper, Caching.get, h, Caching.set, hf, hf2]

/-- Witness for C1 at a concrete input: a fresh decorator store, the world a
counter starting at 5, and the invocation-counting callable. -/
theorem cache_decorator_call_call_evict_call_witness :
    alookup ([] : List (String × Value)) cachedValueAttr = Option.none ∧
    CacheDecorator.wrapper incrWorld [] [] ⟨[], (5 : Int)⟩
      = (.int 6, ⟨[(cachedValueAttr, .int 6)], (6 : Int)⟩) := by
  constructor
  · rfl
  · have h := (cache_decorator_call_call_evict_call incrWorld 5 [] rfl).1
    simpa [incrWorld] using h

/-! ## C7: property mode -/

/-- **C7**: In property mode, assigning a value directly to the decorated
attribute stores that value in the cache without invoking the wrapped
callable (the resulting state is the instance with only the cache attribute
updated, and a subsequent access returns the assigned value unchanged);
deleting the attribute evicts the cache entry; and an access following a
deletion invokes the wrapped callable again to recompute and store. -/
theorem property_mode_assign_delete_recompute
    (d : CacheDescriptor) (h : d.asProperty = true) (inst : Inst) (value : Value) :
    d.dunderSet inst value = .ok ⟨dictSet inst.attrs d.cacheAttribute value⟩ ∧
    d.dunderGet ⟨dictSet inst.attrs d.cacheAttribute value⟩
      = .prop value ⟨dictSet inst.attrs d.cacheAttribute value⟩ ∧
    (∀ v0, alookup inst.attrs d.cacheAttribute = some v0 →
        d.dunderDelete inst = .ok ⟨eraseKey inst.attrs d.cacheAttribute⟩) ∧
    (alookup inst.attrs d.cacheAttribute = Option.none →
        d.dunderGet inst
          = .prop (d.method inst).1
              ⟨dictSet (d.method inst).2.attrs d.cacheAttribute (d.method inst).1⟩) := by
  refine ⟨?_, ?_, ?_, ?_⟩
  · simp [CacheDescriptor.dunderSet, CacheDescriptor.push, Caching.set, h]
  · simp [CacheDescriptor.dunderGet, CacheDescriptor.getter, Caching.get,
      alookup_dictSet_self, h]
  · intro v0 hv
    simp [CacheDescriptor.dunderDelete, CacheDescriptor.pop, Caching.delete, hv, h]
  · intro hmiss
    rcases hm : d.method inst with ⟨mv, mi⟩
    simp [CacheDescriptor.dunderGet, CacheDescriptor.getter, Caching.get,
      Caching.set, hmiss, hm, h]

/-- Witness for C7 at the property-mode fixture: delete evicts the cached
entry of the cached instance, and the next access recomputes `7`. -/
theorem property_mode_assign_delete_recompute_witness :
    fooPropDescriptor.asProperty = true ∧
    alookup fooInstCached.attrs fooPropDescriptor.cacheAttribute = some (.int 6) ∧
    fooPropDescriptor.dunderDelete fooInstCached = .ok fooInstEvicted ∧
    alookup fooInstEvicted.attrs fooPropDescriptor.cacheAttribute = Option.none ∧
    fooPropDescriptor.dunderGet fooInstEvicted
      = .prop (.int 7) ⟨[("counter", .int 7), ("foo_cache_h", .int 7)]⟩ := by
  have h1 := (property_mode_assign_delete_recompute fooPropDescriptor rfl
    fooInstCached .none).2.2.1 (.int 6) (by decide)
  have h2 := (property_mode_assign_delete_recompute fooPropDescriptor rfl
    fooInstEvicted .none).2.2.2 (by decide)
  refine ⟨rfl, by decide, ?_, by decide, ?_⟩
  · simpa using h1
  · simpa using h2

/-! ## C9: wrap-time context classification -/

/-- **C9**: The `in_class` classification of a wrap target, made once at
wrap time and used by `BaseCacheDecorator.get_wrapped_object` to choose
between the per-instance descriptor and the standalone-function wrapper, is
determined (absent an explicit `is_method` override) by introspecting the
target's declared parameter names: the target is classified as a method —
and the decorator produces the per-instance descriptor — exactly when the
first declared parameter is `self` or `cls`, and as a standalone function
otherwise. -/
theorem in_class_classification_by_first_parameter (paramNames : List String) :
    (BaseCacheDecorator.wrapTarget paramNames Option.none = .descriptor
      ↔ ∃ rest, paramNames = "self" :: rest ∨ paramNames = "cls" :: rest) ∧
    (BaseCacheDecorator.wrapTarget paramNames Option.none = .standaloneWrapper
      ↔ ¬ ∃ rest, paramNames = "self" :: rest ∨ paramNames = "cls" :: rest) := by
  cases paramNames with
  | nil =>
    simp [BaseCacheDecorator.wrapTarget, BaseCacheDecorator.dispatch, isInClass]
  | cons p rest =>
    by_cases hp : p = "self" ∨ p = "cls"
    · constructor
      · simp only [BaseCacheDecorator.wrapTarget, BaseCacheDecorator.dispatch, isInClass]
        rcases hp with hp | hp <;> subst hp <;> simp
      · simp only [BaseCacheDecorator.wrapTarget, BaseCacheDecorator.dispatch, isInClass]
        rcases hp with hp | hp <;> subst hp <;> simp
    · push_neg at hp
      constructor
      · simp [BaseCacheDecorator.wrapTarget, BaseCacheDecorator.dispatch, isInClass,
          hp.1, hp.2]
      · simp [BaseCacheDecorator.wrapTarget, BaseCacheDecorator.dispatch, isInClass,
          hp.1, hp.2]

/-! ## C10: method-call mode is attribute-level read-only -/

/-- **C10**: When the cache descriptor is not in property mode, the decorated
attribute is read-only at the attribute level: `__set__` and `__delete__`
raise `AttributeError` for every instance and value — the raise happens
before any mutation, so no successor state exists and the cache store is
untouched — while `__get__` returns the bound wrapper, so the cache can only
be modified through the exposed cached call, `push` and `pop` operations. -/
theorem method_mode_attribute_readonly
    (d : CacheDescriptor) (h : d.asProperty = false) (inst : Inst) (value : Value) :
    d.dunderSet inst value = .error .attributeError ∧
    d.dunderDelete inst = .error .attributeError ∧
    d.dunderGet inst = .boundWrapper := by
  simp [CacheDescriptor.dunderSet, CacheDescriptor.dunderDelete,
    CacheDescriptor.dunderGet, h]

/-- Witness for C10 at the method-call-mode fixture. -/
theorem method_mode_attribute_readonly_witness :
    fooDescriptor.asProperty = false ∧
    fooDescriptor.dunderSet fooInstCached (.int 0) = .error .attributeError ∧
    fooDescriptor.dunderDelete fooInstCached = .error .attributeError := by
  have h := method_mode_attribute_readonly fooDescriptor rfl fooInstCached (.int 0)
  exact ⟨rfl, h.1, h.2.1⟩

/-! ## C3: the NotInCache discipline -/

/-- **C3**: For every owner and argument set whose key is absent from the
cache store, the storage layer's `get` and `delete` raise `NotInCache` (for
both the single-value and the memoizing strategy); a direct evict (`pop`) on
a missing entry propagates `NotInCache` to the caller (both through the
per-instance descriptor and through the standalone-function decorator);
`getter` (get-or-compute) catches `NotInCache` internally and responds by
invoking the wrapped callable and storing the result; and an evict on a
present entry removes it and returns the stored value. -/
theorem not_in_cache_error_discipline :
    (∀ (parent : List (String × Value)) (attr : String),
        alookup parent attr = Option.none →
        Caching.get parent attr = .error .notInCache ∧
        Caching.delete parent attr = .error .notInCache) ∧
    (∀ (store : MemoStore) (args : List Value) (kwargs : List (String × Value)),
        Memoizing.hasEntry store args kwargs = false →
        Memoizing.get store args kwargs = .error .notInCache ∧
        Memoizing.delete store args kwargs = .error .notInCache) ∧
    (∀ (d : CacheDescriptor) (inst : Inst),
        alookup inst.attrs d.cacheAttribute = Option.none →
        CacheDescriptor.pop d inst = .error .notInCache) ∧
    (∀ (σ : Type) (st : FreeCacheState σ),
        alookup st.decAttrs cachedValueAttr = Option.none →
        CacheDecorator.pop st = .error .notInCache) ∧
    (∀ (d : CacheDescriptor) (inst : Inst),
        alookup inst.attrs d.cacheAttribute = Option.none →
        CacheDescriptor.getter d inst
          = ((d.method inst).1,
             ⟨dictSet (d.method inst).2.attrs d.cacheAttribute (d.method inst).1⟩)) ∧
    (∀ (d : CacheDescriptor) (inst : Inst) (v : Value),
        alookup inst.attrs d.cacheAttribute = some v →
        CacheDescriptor.pop d inst = .ok (v, ⟨eraseKey inst.attrs d.cacheAttribute⟩)) ∧
    (∀ (dct : List (String × Value)) (args : List Value)
        (kwargs : List (String × Value)) (v : Value),
        alookup dct (Memoizing.getKey args kwargs) = some v →
        Memoizing.delete (some dct) args kwargs
          = .ok (v, some (eraseKey dct (Memoizing.getKey args kwargs)))) := by
  refine ⟨?_, ?_, ?_, ?_, ?_, ?_, ?_⟩
  · intro parent attr h
    exact ⟨by simp [Caching.get, h], by simp [Caching.delete, h]⟩
  · intro store args kwargs h
    cases store with
    | none => exact ⟨rfl, rfl⟩
    | some d =>
      simp only [Memoizing.hasEntry] at h
      cases ha : alookup d (Memoizing.getKey args kwargs) with
      | some v => simp [ha] at h
      | none => exact ⟨by simp [Memoizing.get, ha], by simp [Memoizing.delete, ha]⟩
  · intro d inst h
    simp [CacheDescriptor.pop, Caching.delete, h]
  · intro σ st h
    simp [CacheDecorator.pop, Caching.delete, h]
  · intro d inst h
    rcases hm : d.method inst with ⟨mv, mi⟩
    simp [CacheDescriptor.getter, Caching.get, Caching.set, h, hm]
  · intro d inst v h
    simp [CacheDescriptor.pop, Caching.delete, h]
  · intro dct args kwargs v h
    simp [Memoizing.delete, h]

/-- Witness for C3 at concrete inputs: an empty store misses; the cached
fixture instance pops its stored `6`. -/
theorem not_in_cache_error_discipline_witness :
    alookup ([] : List (String × Value)) "attr" = Option.none ∧
    Caching.get [] "attr" = .error .notInCache ∧
    Caching.delete [] "attr" = .error .notInCache ∧
    Memoizing.hasEntry (some []) [.int 1] [] = false ∧
    Memoizing.delete (some []) [.int 1] [] = .error .notInCache ∧
    CacheDescriptor.pop fooDescriptor fooInst = .error .notInCache ∧
    CacheDescriptor.pop fooDescriptor fooInstCached = .ok (.int 6, fooInstEvicted) := by
  have h := not_in_cache_error_discipline
  refine ⟨rfl, (h.1 [] "attr" rfl).1, (h.1 [] "attr" rfl).2, rfl,
    (h.2.1 (some []) [.int 1] [] rfl).2,
    h.2.2.1 fooDescriptor fooInst (by decide), ?_⟩
  have hp := h.2.2.2.2.2.1 fooDescriptor fooInstCached (.int 6) (by decide)
  simpa using hp

/-! ## C6: per-instance cache isolation -/

/-- Interleaved addressed operations project: the second component of the
final state depends only on the operations addressed to the second
instance. -/
theorem applyTargetedSeq_snd {τ ω : Type} (step : ω → τ → τ)
    (ops : List (Targeted ω)) (a b : τ) :
    (applyTargetedSeq step ops (a, b)).2 = applySeq step (selectSecond ops) b := by
  induction ops generalizing a b with
  | nil => rfl
  | cons op ops ih =>
    cases op with
    | onFirst op' =>
      simpa [applyTargetedSeq, applyTargeted, selectSecond] using ih (step op' a) b
    | onSecond op' =>
      simpa [applyTargetedSeq, applyTargeted, selectSecond, applySeq]
        using ih a (step op' b)

/-- **C6**: For two distinct instances of the same class whose method is
decorated with a caching or memoizing decorator, the per-instance cache
stores are independent: after any interleaved sequence of cached calls,
cache writes (`push`) and evictions (`pop`), the second instance's state is
exactly what the operations addressed to it alone produce; in particular a
sequence addressed entirely to the first instance leaves the second
instance's cache store — and hence the value and state its next cached call
returns — unchanged. -/
theorem per_instance_cache_isolation :
    (∀ (d : CacheDescriptor) (ops : List (Targeted CacheOp)) (i1 i2 : Inst),
        (applyTargetedSeq (applyOp d) ops (i1, i2)).2
          = applySeq (applyOp d) (selectSecond ops) i2) ∧
    (∀ (d : CacheDescriptor) (ops : List (Targeted CacheOp)) (i1 i2 : Inst),
        selectSecond ops = [] →
        (applyTargetedSeq (applyOp d) ops (i1, i2)).2 = i2 ∧
        CacheDescriptor.getter d (applyTargetedSeq (applyOp d) ops (i1, i2)).2
          = CacheDescriptor.getter d i2) ∧
    (∀ (g : List Value → List (String × Value) → Value)
        (ops : List (Targeted MemoOp)) (s1 s2 : MemoStore),
        (applyTargetedSeq (memoApplyOp g) ops (s1, s2)).2
          = applySeq (memoApplyOp g) (selectSecond ops) s2) ∧
    (∀ (g : List Value → List (String × Value) → Value)
        (ops : List (Targeted MemoOp)) (s1 s2 : MemoStore)
        (args : List Value) (kwargs : List (String × Value)),
        selectSecond ops = [] →
        (applyTargetedSeq (memoApplyOp g) ops (s1, s2)).2 = s2 ∧
        MemoizeDescriptor.getter g args kwargs
            (applyTargetedSeq (memoApplyOp g) ops (s1, s2)).2
          = MemoizeDescriptor.getter g args kwargs s2) := by
  refine ⟨?_, ?_, ?_, ?_⟩
  · intro d ops i1 i2
    exact applyTargetedSeq_snd (applyOp d) ops i1 i2
  · intro d ops i1 i2 hsel
    have h := applyTargetedSeq_snd (applyOp d) ops i1 i2
    rw [hsel] at h
    have h' : (applyTargetedSeq (applyOp d) ops (i1, i2)).2 = i2 := h.trans rfl
    exact ⟨h', by rw [h']⟩
  · intro g ops s1 s2
    exact applyTargetedSeq_snd (memoApplyOp g) ops s1 s2
  · intro g ops s1 s2 args kwargs hsel
    have h := applyTargetedSeq_snd (memoApplyOp g) ops s1 s2
    rw [hsel] at h
    have h' : (applyTargetedSeq (memoApplyOp g) ops (s1, s2)).2 = s2 := h.trans rfl
    exact ⟨h', by rw [h']⟩

/-- Witness for C6: a call and an evict performed through the first fixture
instance leave the second instance's cached state untouched. -/
theorem per_instance_cache_isolation_witness :
    selectSecond [Targeted.onFirst CacheOp.call, Targeted.onFirst CacheOp.pop] = [] ∧
    (applyTargetedSeq (applyOp fooDescriptor)
        [Targeted.onFirst CacheOp.call, Targeted.onFirst CacheOp.pop]
        (fooInst, fooInstCached)).2 = fooInstCached :=
  ⟨rfl, (per_instance_cache_isolation.2.1 fooDescriptor
    [Targeted.onFirst CacheOp.call, Targeted.onFirst CacheOp.pop]
    fooInst fooInstCached rfl).1⟩

/-! ## C8: the recompute override -/

/-- Counterexample to C8 as stated: the newer cache decorator
(`BaseCacheDecorator.get_wrapped_object` wrapper, cache.py lines 449-457)
recognizes no override keyword.  With a cached value `6` present, a call
passing `recompute=True` returns the stale `6` and leaves both the cache
entry and the world untouched: the wrapped callable is not invoked and the
entry is not overwritten, contradicting the claim for this cached call. -/
theorem recompute_ignored_by_new_cache_decorator :
    CacheDecorator.wrapper incrWorld [] [("recompute", .bool true)]
        ⟨[(cachedValueAttr, .int 6)], (6 : Int)⟩
      = (.int 6, ⟨[(cachedValueAttr, .int 6)], (6 : Int)⟩) := rfl

/-- **C8** (amended): The legacy `Cache` decorator of decorators.py accepts a
recognized override keyword argument (configurable name, default
`recompute`): when it is passed as a truthy value, the wrapped callable is
invoked and the cache entry overwritten even if a cached value exists, and
the override argument itself is consumed — the callable receives `kwargs`
with the override key removed; when absent or falsy, the normal hit/miss
behaviour applies.  The newer `BaseCacheDecorator` wrapper of cache.py
provides no such override (see the counterexample). -/
theorem recompute_override_legacy_cache {σ : Type} (cfg : Legacy.CacheConfig)
    (f : List Value → List (String × Value) → σ → Value × σ)
    (args : List Value) (kwargs : List (String × Value))
    (st : Legacy.CacheState σ) :
    (pyBool ((alookup kwargs cfg.recomputeParameter).getD cfg.recomputeDefault)
        = true →
      Legacy.cacheWrapper cfg f args kwargs st
        = ((f args (eraseKey kwargs cfg.recomputeParameter) st.world).1,
           ⟨(f args (eraseKey kwargs cfg.recomputeParameter) st.world).1,
            (f args (eraseKey kwargs cfg.recomputeParameter) st.world).2⟩)) ∧
    (pyBool ((alookup kwargs cfg.recomputeParameter).getD cfg.recomputeDefault)
        = false →
      pyBool st.cache = true →
      Legacy.cacheWrapper cfg f args kwargs st = (st.cache, st)) ∧
    (pyBool ((alookup kwargs cfg.recomputeParameter).getD cfg.recomputeDefault)
        = false →
      pyBool st.cache = false →
      Legacy.cacheWrapper cfg f args kwargs st
        = ((f args (eraseKey kwargs cfg.recomputeParameter) st.world).1,
           ⟨(f args (eraseKey kwargs cfg.recomputeParameter) st.world).1,
            (f args (eraseKey kwargs cfg.recomputeParameter) st.world).2⟩)) := by
  rcases hf : f args (eraseKey kwargs cfg.recomputeParameter) st.world with ⟨v, w⟩
  refine ⟨?_, ?_, ?_⟩
  · intro hrec
    simp [Legacy.cacheWrapper, hrec, hf]
  · intro hrec hc
    simp [Legacy.cacheWrapper, hrec, hc]
  · intro hrec hc
    simp [Legacy.cacheWrapper, hrec, hc, hf]

/-- Witness for C8 (amended) at a concrete input: with cached truthy `6` and
`recompute=True` passed, the legacy wrapper invokes the callable (world `6`
becomes `7`), overwrites the cache with `7` and does not forward the
override key. -/
theorem recompute_override_legacy_cache_witness :
    pyBool ((alookup [("recompute", Value.bool true)]
        Legacy.defaultCacheConfig.recomputeParameter).getD
        Legacy.defaultCacheConfig.recomputeDefault) = true ∧
    Legacy.cacheWrapper Legacy.defaultCacheConfig incrWorld []
        [("recompute", .bool true)] ⟨.int 6, (6 : Int)⟩
      = (.int 7, ⟨.int 7, (7 : Int)⟩) := by
  refine ⟨rfl, ?_⟩
  have h := (recompute_override_legacy_cache Legacy.defaultCacheConfig incrWorld []
    [("recompute", .bool true)] ⟨.int 6, 6⟩).1 rfl
  simpa [incrWorld, Legacy.defaultCacheConfig] using h

/-! ## C2: the memoization key -/

/-- A list of items sorted by `itemLE` whose names are pairwise distinct is
sorted by the strict order `itemLT`. -/
theorem sorted_itemLT_of_sorted_itemLE {l : List (String × Value)}
    (hs : List.Sorted itemLE l) (hn : (l.map Prod.fst).Nodup) :
    List.Sorted itemLT l := by
  have hn' : List.Pairwise (fun a b : String × Value => a.1 ≠ b.1) l :=
    List.pairwise_map.mp hn
  exact (hs.and hn').imp
    (fun h => lt_of_le_of_ne h.1 (fun hd => h.2 (String.ext hd)))

/-- Sorting canonicalizes: two permuted keyword dicts with (shared) distinct
names produce the same sorted item list. -/
theorem sortedItems_eq_of_perm {kw1 kw2 : List (String × Value)}
    (hperm : kw1.Perm kw2) (hn : (kw1.map Prod.fst).Nodup) :
    sortedItems kw1 = sortedItems kw2 := by
  have p1 : (sortedItems kw1).Perm kw1 := List.perm_insertionSort itemLE kw1
  have p2 : (sortedItems kw2).Perm kw2 := List.perm_insertionSort itemLE kw2
  have hn1 : ((sortedItems kw1).map Prod.fst).Nodup :=
    ((p1.map Prod.fst).symm).nodup hn
  have hn2 : ((sortedItems kw2).map Prod.fst).Nodup :=
    ((p2.map Prod.fst).symm).nodup ((hperm.map Prod.fst).nodup hn)
  have hs1 : List.Sorted itemLT (sortedItems kw1) :=
    sorted_itemLT_of_sorted_itemLE (List.sorted_insertionSort itemLE kw1) hn1
  have hs2 : List.Sorted itemLT (sortedItems kw2) :=
    sorted_itemLT_of_sorted_itemLE (List.sorted_insertionSort itemLE kw2) hn2
  exact List.eq_of_perm_of_sorted (p1.trans (hperm.trans p2.symm)) hs1 hs2

/-- **C2**: The memoizing strategy's cache key is a deterministic function of
the call arguments, order-insensitive in keyword arguments — every pair of
calls with equal positional tuples and keyword dicts equal as collections of
name-value pairs (a permutation, names being unique within a call) computes
the same key, in particular `f(a=1, b=2)` and `f(b=2, a=1)` — and
order-sensitive in positional arguments: `f(1)` and `f(2)` compute different
keys whatever the keyword arguments. -/
theorem memoize_key_canonicalization :
    (∀ (args : List Value) (kw1 kw2 : List (String × Value)),
        kw1.Perm kw2 → (kw1.map Prod.fst).Nodup →
        Memoizing.getKey args kw1 = Memoizing.getKey args kw2) ∧
    (∀ kwargs : List (String × Value),
        Memoizing.getKey [.int 1] kwargs ≠ Memoizing.getKey [.int 2] kwargs) ∧
    Memoizing.getKey [] [("a", .int 1), ("b", .int 2)]
      = Memoizing.getKey [] [("b", .int 2), ("a", .int 1)] := by
  have horder : ∀ (args : List Value) (kw1 kw2 : List (String × Value)),
      kw1.Perm kw2 → (kw1.map Prod.fst).Nodup →
      Memoizing.getKey args kw1 = Memoizing.getKey args kw2 := by
    intro args kw1 kw2 hperm hn
    unfold Memoizing.getKey
    rw [sortedItems_eq_of_perm hperm hn]
  refine ⟨horder, ?_,
    horder [] [("a", .int 1), ("b", .int 2)] [("b", .int 2), ("a", .int 1)]
      (by decide) (by decide)⟩
  · intro kwargs h
    unfold Memoizing.getKey at h
    have hd := congrArg String.data h
    rw [String.data_append, String.data_append] at hd
    have hpre : (pyReprTuple [Value.int 1]).data = (pyReprTuple [Value.int 2]).data :=
      List.append_cancel_right hd
    exact absurd hpre (by decide)

/-- Witness for C2 at the spec's example: `f(a=1, b=2)` and `f(b=2, a=1)`
share one key; `f(1)` and `f(2)` do not. -/
theorem memoize_key_canonicalization_witness :
    ([("a", Value.int 1), ("b", Value.int 2)] :
        List (String × Value)).Perm [("b", .int 2), ("a", .int 1)] ∧
    (([("a", Value.int 1), ("b", Value.int 2)] :
        List (String × Value)).map Prod.fst).Nodup ∧
    Memoizing.getKey [.str "x"] [("a", .int 1), ("b", .int 2)]
      = Memoizing.getKey [.str "x"] [("b", .int 2), ("a", .int 1)] ∧
    Memoizing.getKey [.int 1] [("a", .int 1)] ≠ Memoizing.getKey [.int 2] [("a", .int 1)] := by
  refine ⟨by decide, by decide, ?_, ?_⟩
  · exact memoize_key_canonicalization.1 [.str "x"]
      [("a", .int 1), ("b", .int 2)] [("b", .int 2), ("a", .int 1)]
      (by decide) (by decide)
  · exact memoize_key_canonicalization.2.1 [("a", .int 1)]

/-! ## C4: parameter-specification validation -/

theorem identStart_ne_star {c : Char} (h : isIdentStart c = true) : c ≠ '*' := by
  intro he
  subst he
  exact absurd h (by decide)

theorem identChar_ne_star {c : Char} (h : isIdentChar c = true) : c ≠ '*' := by
  intro he
  subst he
  exact absurd h (by decide)

/-- A plain identifier contains no `*` character. -/
theorem star_not_mem_of_isNormalIdent {a : String} (h : isNormalIdent a = true) :
    '*' ∉ a.data := by
  unfold isNormalIdent at h
  intro hmem
  cases ha : a.data with
  | nil =>
    rw [ha] at hmem
    exact absurd hmem (List.not_mem_nil _)
  | cons c cs =>
    rw [ha] at h hmem
    simp only [isNormalIdentChars, Bool.and_eq_true] at h
    rcases List.mem_cons.mp hmem with he | hm
    · exact identStart_ne_star h.1 he.symm
    · exact identChar_ne_star (List.all_eq_true.mp h.2 _ hm) rfl

/-- A plain identifier is non-empty and starts with a non-star character, so
it is not starred. -/
theorem not_isStarred_of_isNormalIdent {a : String} (h : isNormalIdent a = true) :
    isStarred a = false := by
  unfold isNormalIdent at h
  unfold isStarred
  cases ha : a.data with
  | nil => rfl
  | cons c cs =>
    rw [ha] at h
    simp only [isNormalIdentChars, Bool.and_eq_true] at h
    simp [identStart_ne_star h.1]

@[simp] theorem isStarred_mk_star (l : List Char) : isStarred ⟨'*' :: l⟩ = true := rfl

/-- Stripping stars from a star-free string is the identity. -/
theorem stripStars_eq_self {a : String} (h : '*' ∉ a.data) : stripStars a = a := by
  apply String.ext
  refine List.filter_eq_self.mpr ?_
  intro c hc
  simp only [decide_eq_true_eq]
  intro he
  subst he
  exact h hc

@[simp] theorem stripStars_mk_star (l : List Char) :
    stripStars ⟨'*' :: l⟩ = stripStars ⟨l⟩ := by
  apply String.ext
  simp [stripStars]

/-- A plain identifier also matches the arbitrary-identifier regex. -/
theorem isArbitraryIdent_of_isNormalIdent {a : String} (h : isNormalIdent a = true) :
    isArbitraryIdent a = true := by
  unfold isNormalIdent at h
  unfold isArbitraryIdent
  cases ha : a.data with
  | nil =>
    rw [ha] at h
    exact absurd h (by decide)
  | cons c cs =>
    rw [ha] at h
    have hc : c ≠ '*' := by
      simp only [isNormalIdentChars, Bool.and_eq_true] at h
      exact identStart_ne_star h.1
    simpa [if_neg hc] using h

/-- Prefixing one star to a plain identifier matches the arbitrary regex. -/
theorem isArbitraryIdent_star {a : String} (h : isNormalIdent a = true) :
    isArbitraryIdent ⟨'*' :: a.data⟩ = true := by
  unfold isNormalIdent at h
  cases ha : a.data with
  | nil =>
    rw [ha] at h
    exact absurd h (by decide)
  | cons c cs =>
    rw [ha] at h
    have hc : c ≠ '*' := by
      simp only [isNormalIdentChars, Bool.and_eq_true] at h
      exact identStart_ne_star h.1
    simpa [isArbitraryIdent, hc] using h

/-- Prefixing two stars to a plain identifier matches the arbitrary regex. -/
theorem isArbitraryIdent_star2 {a : String} (h : isNormalIdent a = true) :
    isArbitraryIdent ⟨'*' :: '*' :: a.data⟩ = true := h

/-- Star-stripping maps a list of plain identifiers to itself. -/
theorem map_stripStars_eq_self {l : List String}
    (h : ∀ p ∈ l, isNormalIdent p = true) : l.map stripStars = l := by
  induction l with
  | nil => rfl
  | cons p rest ih =>
    rw [List.map_cons,
      stripStars_eq_self (star_not_mem_of_isNormalIdent (h p (by simp))),
      ih (fun q hq => h q (by simp [hq]))]

/-- The identifier loop succeeds when every entry matches the arbitrary
regex and every entry positioned more than two from the end matches the
normal regex. -/
theorem checkIdentifiers_ok {total : Nat} {l : List String} {i : Nat}
    (harb : ∀ p ∈ l, isArbitraryIdent p = true)
    (hnorm : ∀ (j : Nat) (hj : j < l.length), i + j + 2 < total →
        isNormalIdent (l.get ⟨j, hj⟩) = true) :
    Decorator.checkIdentifiers total l i = .ok () := by
  induction l generalizing i with
  | nil => rfl
  | cons p rest ih =>
    unfold Decorator.checkIdentifiers
    by_cases hc : i + 2 < total
    · have hp : isNormalIdent p = true :=
        hnorm 0 (by simp) (by omega)
      rw [if_pos hc, hp]
      simp only [if_true]
      exact ih (fun q hq => harb q (by simp [hq]))
        (fun j hj hlt => by
          have := hnorm (j + 1) (by simpa using Nat.succ_lt_succ hj) (by omega)
          simpa using this)
    · have hp : isArbitraryIdent p = true := harb p (by simp)
      rw [if_neg hc, hp]
      simp only [if_true]
      exact ih (fun q hq => harb q (by simp [hq]))
        (fun j hj hlt => absurd hlt (by omega))

/-- The collector-placement check succeeds on a list with no starred entry. -/
theorem checkCollectors_ok_of_no_star {l : List String}
    (h : ∀ p ∈ l, isStarred p = false) : Decorator.checkCollectors l = .ok () := by
  unfold Decorator.checkCollectors
  split
  · rename_i a b heq
    have ha : a ∈ l := List.drop_subset _ l (by rw [heq]; simp)
    have hb : b ∈ l := List.drop_subset _ l (by rw [heq]; simp)
    rw [h a ha, h b hb]
    simp
  · rfl

/-- The duplicate-identifier condition is falsified by a nodup identifier
list. -/
theorem dedup_cond_false {l : List String} (h : l.Nodup) :
    ¬ l.dedup.length < l.length := by
  rw [List.dedup_eq_self.mpr h]
  exact lt_irrefl _

/-- The `DEFAULTS` key check succeeds when every key is a declared
non-starred name. -/
theorem checkDefaults_ok {PARAMETERS : List String} {D : List (String × Value)}
    (h : ∀ kv ∈ D, kv.1 ∈ PARAMETERS ∧ isStarred kv.1 = false) :
    Decorator.checkDefaults PARAMETERS D = .ok () := by
  induction D with
  | nil => rfl
  | cons kv rest ih =>
    obtain ⟨hk, hs⟩ := h kv (by simp)
    unfold Decorator.checkDefaults
    rw [show PARAMETERS.contains kv.1 = true from List.elem_eq_true_of_mem hk, hs]
    simp only [Bool.not_true, Bool.false_eq_true, if_false, if_true]
    exact ih (fun kv2 hkv2 => h kv2 (by simp [hkv2]))

/-- The optional-order walk ignores a prefix of required (default-free,
non-starred) names. -/
theorem checkOptionalOrder_skip {D : List (String × Value)} {l rest : List String}
    (h : ∀ p ∈ l, alookup D p = Option.none ∧ isStarred p = false) :
    Decorator.checkOptionalOrder D (l ++ rest) false
      = Decorator.checkOptionalOrder D rest false := by
  induction l with
  | nil => rfl
  | cons p tl ih =>
    obtain ⟨hn, hs⟩ := h p (by simp)
    rw [List.cons_append]
    conv_lhs => unfold Decorator.checkOptionalOrder
    rw [hs, hn]
    simp only [Bool.false_eq_true, if_false, Option.isSome_none, if_true]
    exact ih (fun q hq => h q (by simp [hq]))

/-- The optional-order walk succeeds, from any flag state, on a tail whose
entries each have a default or are collectors. -/
theorem checkOptionalOrder_tail {D : List (String × Value)} {l : List String}
    (h : ∀ p ∈ l, (alookup D p).isSome = true ∨ isStarred p = true) :
    ∀ b, Decorator.checkOptionalOrder D l b = .ok () := by
  induction l with
  | nil => intro b; rfl
  | cons p tl ih =>
    intro b
    have htl := fun q hq => h q (List.mem_cons_of_mem p hq)
    unfold Decorator.checkOptionalOrder
    by_cases hstar : isStarred p = true
    · rw [hstar]
      simp only [if_true]
      exact ih htl b
    · have hs : isStarred p = false := by simpa using hstar
      have hd : (alookup D p).isSome = true := by
        rcases h p (by simp) with hd | hcontr
        · exact hd
        · exact absurd hcontr hstar
      rw [hs, hd]
      simp only [Bool.false_eq_true, if_false, if_true]
      exact ih htl true

theorem stripStars_star_of_isNormalIdent {a : String} (h : isNormalIdent a = true) :
    stripStars ⟨'*' :: a.data⟩ = a := by
  rw [stripStars_mk_star]
  exact stripStars_eq_self (star_not_mem_of_isNormalIdent h)

theorem stripStars_star2_of_isNormalIdent {a : String} (h : isNormalIdent a = true) :
    stripStars ⟨'*' :: '*' :: a.data⟩ = a := by
  rw [stripStars_mk_star, stripStars_mk_star]
  exact stripStars_eq_self (star_not_mem_of_isNormalIdent h)

/-- On a structurally valid spec, star-stripping the `PARAMETERS` tuple
recovers exactly the declared base names. -/
theorem map_stripStars_PARAMETERS (s : SpecShape)
    (h : ∀ p ∈ s.namedParams ++ s.collectorNames, isNormalIdent p = true) :
    s.PARAMETERS.map stripStars = s.namedParams ++ s.collectorNames := by
  have hnamed : ∀ p ∈ s.namedParams, isNormalIdent p = true :=
    fun p hp => h p (List.mem_append_left _ hp)
  have hcoll : ∀ p ∈ s.collectorNames, isNormalIdent p = true :=
    fun p hp => h p (List.mem_append_right _ hp)
  obtain ⟨req, opt, argsC, kwargsC⟩ := s
  cases argsC with
  | none =>
    cases kwargsC with
    | none =>
      simp only [SpecShape.PARAMETERS, SpecShape.collectorNames, Option.map_none',
        Option.toList_none, List.append_nil, List.map_append]
      rw [map_stripStars_eq_self hnamed]
    | some k =>
      have hk : isNormalIdent k = true := hcoll k (by
        simp [SpecShape.collectorNames])
      simp only [SpecShape.PARAMETERS, SpecShape.collectorNames, Option.map_none',
        Option.map_some', Option.toList_none, Option.toList_some, List.append_nil,
        List.nil_append, List.map_append, List.map_cons, List.map_nil]
      rw [map_stripStars_eq_self hnamed, stripStars_star2_of_isNormalIdent hk]
  | some a =>
    have ha : isNormalIdent a = true := hcoll a (by
      simp [SpecShape.collectorNames])
    cases kwargsC with
    | none =>
      simp only [SpecShape.PARAMETERS, SpecShape.collectorNames, Option.map_none',
        Option.map_some', Option.toList_none, Option.toList_some, List.append_nil,
        List.map_append, List.map_cons, List.map_nil]
      rw [map_stripStars_eq_self hnamed, stripStars_star_of_isNormalIdent ha]
    | some k =>
      have hk : isNormalIdent k = true := hcoll k (by
        simp [SpecShape.collectorNames])
      simp only [SpecShape.PARAMETERS, SpecShape.collectorNames, Option.map_some',
        Option.toList_some, List.map_append, List.map_cons, List.map_nil]
      rw [map_stripStars_eq_self hnamed, stripStars_star_of_isNormalIdent ha,
        stripStars_star2_of_isNormalIdent hk, List.append_assoc]

/-- Bounds on the length of the rendered `PARAMETERS` tuple. -/
theorem PARAMETERS_length_bounds (s : SpecShape) :
    s.namedParams.length ≤ s.PARAMETERS.length ∧
    s.PARAMETERS.length ≤ s.namedParams.length + 2 := by
  unfold SpecShape.PARAMETERS
  cases s.argsCollector <;> cases s.kwargsCollector <;>
    simp [List.length_append]

/-- An index below the named-parameter count addresses a named parameter in
the rendered tuple. -/
theorem PARAMETERS_getElem_named (s : SpecShape) {j : Nat}
    (hj : j < s.namedParams.length) (hj2 : j < s.PARAMETERS.length) :
    s.PARAMETERS.get ⟨j, hj2⟩ = s.namedParams.get ⟨j, hj⟩ := by
  simp only [List.get_eq_getElem]
  unfold SpecShape.PARAMETERS at hj2 ⊢
  rw [List.getElem_append_left (by rw [List.length_append]; omega),
    List.getElem_append_left hj]

/-- The identifier loop accepts every structurally valid spec. -/
theorem checkIdentifiers_PARAMETERS (s : SpecShape)
    (hids : ∀ p ∈ s.namedParams ++ s.collectorNames, isNormalIdent p = true) :
    Decorator.checkIdentifiers s.PARAMETERS.length s.PARAMETERS 0 = .ok () := by
  apply checkIdentifiers_ok
  · intro p hp
    unfold SpecShape.PARAMETERS at hp
    rcases List.mem_append.mp hp with hp1 | hpK
    · rcases List.mem_append.mp hp1 with hpn | hpA
      · exact isArbitraryIdent_of_isNormalIdent (hids p (List.mem_append_left _ hpn))
      · cases ha : s.argsCollector with
        | none => rw [ha] at hpA; simp at hpA
        | some a =>
          rw [ha] at hpA
          simp only [Option.map_some', Option.toList_some, List.mem_singleton] at hpA
          subst hpA
          exact isArbitraryIdent_star
            (hids a (List.mem_append_right _ (by simp [SpecShape.collectorNames, ha])))
    · cases hk : s.kwargsCollector with
      | none => rw [hk] at hpK; simp at hpK
      | some k =>
        rw [hk] at hpK
        simp only [Option.map_some', Option.toList_some, List.mem_singleton] at hpK
        subst hpK
        exact isArbitraryIdent_star2
          (hids k (List.mem_append_right _ (by simp [SpecShape.collectorNames, hk])))
  · intro j hj hlt
    have hb := PARAMETERS_length_bounds s
    have hjm : j < s.namedParams.length := by omega
    rw [PARAMETERS_getElem_named s hjm]
    simp only [List.get_eq_getElem]
    exact hids _ (List.mem_append_left _ (List.getElem_mem _))

/-- `⟨a.data⟩` is `a`: structure eta for the embedded strings. -/
@[simp] theorem mk_own_data (a : String) : (⟨a.data⟩ : String) = a := rfl

/-- The collector check accepts a non-starred list followed by one starred
entry. -/
theorem checkCollectors_append_single_star {named : List String} {x : String}
    (hns : ∀ p ∈ named, isStarred p = false) :
    Decorator.checkCollectors (named ++ [x]) = .ok () := by
  rcases List.eq_nil_or_concat named with hnil | ⟨L, b, hLb⟩
  · subst hnil
    rfl
  · have hform : named ++ [x] = L ++ [b, x] := by
      rw [hLb, List.concat_eq_append, List.append_assoc]
      rfl
    rw [hform]
    unfold Decorator.checkCollectors
    have hlen : (L ++ [b, x]).length - 2 = L.length := by simp
    rw [hlen, List.drop_left]
    have hb : isStarred b = false := hns b (by rw [hLb]; simp)
    simp [hb]

/-- The collector check accepts a trailing `*args`-then-`**kwargs` pair. -/
theorem checkCollectors_append_two_stars {named : List String} {a k : String}
    (hA : isNormalIdent a = true) :
    Decorator.checkCollectors
      (named ++ [⟨'*' :: a.data⟩, ⟨'*' :: '*' :: k.data⟩]) = .ok () := by
  unfold Decorator.checkCollectors
  have hlen : (named ++ [(⟨'*' :: a.data⟩ : String), ⟨'*' :: '*' :: k.data⟩]).length - 2
      = named.length := by simp
  rw [hlen, List.drop_left]
  simp [dropChars, not_isStarred_of_isNormalIdent hA]

/-- The collector-placement check accepts every structurally valid spec. -/
theorem checkCollectors_PARAMETERS (s : SpecShape)
    (hids : ∀ p ∈ s.namedParams ++ s.collectorNames, isNormalIdent p = true) :
    Decorator.checkCollectors s.PARAMETERS = .ok () := by
  have hnostar : ∀ p ∈ s.namedParams, isStarred p = false :=
    fun p hp => not_isStarred_of_isNormalIdent (hids p (List.mem_append_left _ hp))
  have hcoll : ∀ p ∈ s.collectorNames, isNormalIdent p = true :=
    fun p hp => hids p (List.mem_append_right _ hp)
  obtain ⟨req, opt, argsC, kwargsC⟩ := s
  cases argsC with
  | none =>
    cases kwargsC with
    | none =>
      apply checkCollectors_ok_of_no_star
      intro p hp
      apply hnostar
      simpa [SpecShape.PARAMETERS] using hp
    | some k =>
      have h2 : SpecShape.PARAMETERS ⟨req, opt, Option.none, some k⟩
          = SpecShape.namedParams ⟨req, opt, Option.none, some k⟩
              ++ [⟨'*' :: '*' :: k.data⟩] := by
        simp [SpecShape.PARAMETERS]
      rw [h2]
      exact checkCollectors_append_single_star hnostar
  | some a =>
    cases kwargsC with
    | none =>
      have h2 : SpecShape.PARAMETERS ⟨req, opt, some a, Option.none⟩
          = SpecShape.namedParams ⟨req, opt, some a, Option.none⟩
              ++ [⟨'*' :: a.data⟩] := by
        simp [SpecShape.PARAMETERS]
      rw [h2]
      exact checkCollectors_append_single_star hnostar
    | some k =>
      have ha : isNormalIdent a = true := hcoll a (by simp [SpecShape.collectorNames])
      have h2 : SpecShape.PARAMETERS ⟨req, opt, some a, some k⟩
          = SpecShape.namedParams ⟨req, opt, some a, some k⟩
              ++ [⟨'*' :: a.data⟩, ⟨'*' :: '*' :: k.data⟩] := by
        simp [SpecShape.PARAMETERS]
      rw [h2]
      exact checkCollectors_append_two_stars ha

/-- The `DEFAULTS` key check accepts every structurally valid spec. -/
theorem checkDefaults_PARAMETERS (s : SpecShape)
    (hids : ∀ p ∈ s.namedParams ++ s.collectorNames, isNormalIdent p = true) :
    Decorator.checkDefaults s.PARAMETERS s.DEFAULTS = .ok () := by
  apply checkDefaults_ok
  intro kv hkv
  have hmemOpt : kv.1 ∈ s.optionalNames := List.mem_map_of_mem Prod.fst hkv
  have hmemNamed : kv.1 ∈ s.namedParams := by
    unfold SpecShape.namedParams
    exact List.mem_append_right _ hmemOpt
  refine ⟨?_, not_isStarred_of_isNormalIdent (hids _ (List.mem_append_left _ hmemNamed))⟩
  unfold SpecShape.PARAMETERS
  exact List.mem_append_left _ (List.mem_append_left _ hmemNamed)

/-- The optional-after-required check accepts every structurally valid
spec. -/
theorem checkOptionalOrder_PARAMETERS (s : SpecShape)
    (hids : ∀ p ∈ s.namedParams ++ s.collectorNames, isNormalIdent p = true)
    (hnd : (s.namedParams ++ s.collectorNames).Nodup) :
    Decorator.checkOptionalOrder s.DEFAULTS s.PARAMETERS false = .ok () := by
  have hP : s.PARAMETERS = s.required ++ (s.optionalNames ++
      ((s.argsCollector.map (fun a => (⟨'*' :: a.data⟩ : String))).toList ++
       (s.kwargsCollector.map (fun a => (⟨'*' :: '*' :: a.data⟩ : String))).toList)) := by
    unfold SpecShape.PARAMETERS SpecShape.namedParams
    simp [List.append_assoc]
  have hdisj : s.required.Disjoint s.optionalNames := by
    have h1 : (s.required ++ s.optionalNames).Nodup := by
      have h2 := (List.nodup_append.mp hnd).1
      simpa [SpecShape.namedParams] using h2
    exact (List.nodup_append.mp h1).2.2
  rw [hP, checkOptionalOrder_skip]
  · apply checkOptionalOrder_tail
    intro p hp
    rcases List.mem_append.mp hp with hopt | hcolls
    · left
      rw [alookup_isSome_iff]
      exact hopt
    · right
      rcases List.mem_append.mp hcolls with hA | hK
      · cases ha : s.argsCollector with
        | none =>
          rw [ha] at hA
          simp at hA
        | some a =>
          rw [ha] at hA
          simp only [Option.map_some', Option.toList_some, List.mem_singleton] at hA
          subst hA
          rfl
      · cases hk : s.kwargsCollector with
        | none =>
          rw [hk] at hK
          simp at hK
        | some k =>
          rw [hk] at hK
          simp only [Option.map_some', Option.toList_some, List.mem_singleton] at hK
          subst hK
          rfl
  · intro p hp
    refine ⟨?_, not_isStarred_of_isNormalIdent (hids p (List.mem_append_left _ (by
      unfold SpecShape.namedParams
      exact List.mem_append_left _ hp)))⟩
    rw [alookup_eq_none_iff]
    exact fun hmem => hdisj hp hmem

/-- `validate_parameter_config` accepts every structurally valid spec. -/
theorem validate_parameter_config_ok (s : SpecShape) (hv : s.Valid) :
    Decorator.validate_parameter_config s.PARAMETERS s.DEFAULTS = .ok () := by
  obtain ⟨hids, hnd⟩ := hv
  have hmap := map_stripStars_PARAMETERS s hids
  simp only [Decorator.validate_parameter_config]
  rw [hmap, if_neg (dedup_cond_false hnd), checkIdentifiers_PARAMETERS s hids,
    checkCollectors_PARAMETERS s hids, checkDefaults_PARAMETERS s hids]
  by_cases hD : s.DEFAULTS.isEmpty
  · simp [hD]
  · simp [hD, checkOptionalOrder_PARAMETERS s hids hnd]

/-- **C4**: Parameter-specification validation succeeds for every
structurally valid spec (unique plain-identifier names, required before
optional before the `*args` collector before the `**kwargs` collector,
defaults keyed exactly by the declared optional names); it fails with a
configuration error for each violation class — duplicate name, malformed
identifier, misplaced collector, `*args` after `**kwargs`, default
referencing a non-declared name, default referencing a collector, optional
parameter before a required one; and it runs at decorator construction time:
a failing validation makes `Decorator.__init__` fail with that
configuration error for every call-argument set, before any call. -/
theorem parameter_config_validation :
    (∀ s : SpecShape, s.Valid →
        Decorator.validate_parameter_config s.PARAMETERS s.DEFAULTS = .ok ()) ∧
    Decorator.validate_parameter_config ["foo", "*foo"] []
      = .error .redefinedParameter ∧
    Decorator.validate_parameter_config ["foo*"] []
      = .error (.invalidIdentifier "foo*") ∧
    Decorator.validate_parameter_config ["foo", "*bar", "cat"] []
      = .error .collectorBeforeRegular ∧
    Decorator.validate_parameter_config ["foo", "bar", "**cat", "*dog"] []
      = .error .starArgsOrder ∧
    Decorator.validate_parameter_config ["foo", "bar", "*cat", "**dog"]
        [("snake", .none)] = .error .defaultsNotInParameters ∧
    Decorator.validate_parameter_config ["foo", "bar", "*cat", "**dog"]
        [("*cat", .none)] = .error .invalidDefaultSyntax ∧
    Decorator.validate_parameter_config ["foo", "bar", "*cat", "**dog"]
        [("foo", .none)] = .error .optionalBeforeRequired ∧
    (∀ (PARAMETERS : List String) (DEFAULTS : List (String × Value))
        (e : ConfigError),
        Decorator.validate_parameter_config PARAMETERS DEFAULTS = .error e →
        ∀ (args : List Value) (kwargs : List (String × Value)),
          Decorator.init PARAMETERS DEFAULTS args kwargs = .error (.config e)) := by
  refine ⟨validate_parameter_config_ok, rfl, rfl, rfl, rfl, rfl, rfl, rfl, ?_⟩
  intro P D e h args kwargs
  simp [Decorator.init, h]

/-- Witness for C4: a concrete valid spec validates, and a malformed spec
already fails at construction time. -/
theorem parameter_config_validation_witness :
    SpecShape.Valid ⟨["a", "b"], [("c", .none)], some "args", some "kwargs"⟩ ∧
    Decorator.validate_parameter_config
        (SpecShape.PARAMETERS ⟨["a", "b"], [("c", .none)], some "args", some "kwargs"⟩)
        (SpecShape.DEFAULTS ⟨["a", "b"], [("c", .none)], some "args", some "kwargs"⟩)
      = .ok () ∧
    Decorator.validate_parameter_config ["foo", "*foo"] []
      = .error .redefinedParameter ∧
    Decorator.init ["foo", "*foo"] [] [] [] = .error (.config .redefinedParameter) := by
  refine ⟨by decide, parameter_config_validation.1 _ (by decide),
    parameter_config_validation.2.1, ?_⟩
  exact parameter_config_validation.2.2.2.2.2.2.2.2 ["foo", "*foo"] []
    .redefinedParameter parameter_config_validation.2.1 [] []

/-! ## C5: argument resolution -/

/-- Zipping truncates both lists at the shorter length. -/
theorem zip_take_min {α β : Type} (l1 : List α) (l2 : List β) :
    (l1.take (min l1.length l2.length)).zip (l2.take (min l1.length l2.length))
      = l1.zip l2 := by
  induction l1 generalizing l2 with
  | nil => simp
  | cons a t1 ih =>
    cases l2 with
    | nil => simp
    | cons b t2 =>
      simp only [List.length_cons, List.zip_cons_cons]
      rw [show min (t1.length + 1) (t2.length + 1) = min t1.length t2.length + 1 by
        omega]
      rw [List.take_succ_cons, List.take_succ_cons, List.zip_cons_cons, ih]

/-- The keys of a zip are the first `min` elements of the first list. -/
theorem map_fst_zip_min {α β : Type} (l1 : List α) (l2 : List β) :
    (l1.zip l2).map Prod.fst = l1.take (min l1.length l2.length) := by
  induction l1 generalizing l2 with
  | nil => simp
  | cons a t1 ih =>
    cases l2 with
    | nil => simp
    | cons b t2 =>
      simp only [List.zip_cons_cons, List.map_cons, List.length_cons]
      rw [show min (t1.length + 1) (t2.length + 1) = min t1.length t2.length + 1 by
        omega]
      rw [List.take_succ_cons, ih]

/-- Lookup through the positional wrapping map. -/
theorem alookup_map_boundv (m : List (String × Value)) (n : String) :
    alookup (m.map (fun kv => (kv.1, BoundVal.v kv.2))) n
      = (alookup m n).map BoundVal.v := by
  induction m with
  | nil => rfl
  | cons kv rest ih =>
    obtain ⟨k, v⟩ := kv
    by_cases hk : k = n
    · subst hk
      simp [alookup]
    · simp [alookup, hk, ih]

/-- The source's remove-loop (`params_to_set.remove(p)` over the positional
prefix) computes the drop of the prefix. -/
theorem erase_fold_take (l : List String) (k : Nat) :
    (l.take k).foldl (fun acc p => acc.erase p) l = l.drop k := by
  induction l generalizing k with
  | nil => simp
  | cons p tl ih =>
    cases k with
    | zero => rfl
    | succ k =>
      rw [List.take_succ_cons, List.foldl_cons, List.erase_cons_head,
        List.drop_succ_cons]
      exact ih k

/-- On a structurally valid spec, the non-starred entries of `PARAMETERS` are
exactly the named parameters. -/
theorem paramsToSet_PARAMETERS (s : SpecShape)
    (hids : ∀ p ∈ s.namedParams ++ s.collectorNames, isNormalIdent p = true) :
    Decorator.paramsToSet s.PARAMETERS = s.namedParams := by
  unfold Decorator.paramsToSet SpecShape.PARAMETERS
  rw [List.filter_append, List.filter_append]
  have h1 : s.namedParams.filter (fun p => !isStarred p) = s.namedParams :=
    List.filter_eq_self.mpr (fun p hp => by
      simp [not_isStarred_of_isNormalIdent (hids p (List.mem_append_left _ hp))])
  have h2 : ((s.argsCollector.map fun a => (⟨'*' :: a.data⟩ : String)).toList).filter
      (fun p => !isStarred p) = [] := by
    cases s.argsCollector <;> simp
  have h3 : ((s.kwargsCollector.map fun a => (⟨'*' :: '*' :: a.data⟩ : String)).toList).filter
      (fun p => !isStarred p) = [] := by
    cases s.kwargsCollector <;> simp
  rw [h1, h2, h3, List.append_nil, List.append_nil]

/-- On a structurally valid spec, the starred entries of `PARAMETERS` are the
rendered collectors. -/
theorem filter_isStarred_PARAMETERS (s : SpecShape)
    (hids : ∀ p ∈ s.namedParams ++ s.collectorNames, isNormalIdent p = true) :
    s.PARAMETERS.filter isStarred
      = ((s.argsCollector.map fun a => (⟨'*' :: a.data⟩ : String)).toList)
        ++ ((s.kwargsCollector.map fun a => (⟨'*' :: '*' :: a.data⟩ : String)).toList) := by
  unfold SpecShape.PARAMETERS
  rw [List.filter_append, List.filter_append]
  have h1 : s.namedParams.filter isStarred = [] := by
    rw [List.filter_eq_nil_iff]
    intro p hp
    simp [not_isStarred_of_isNormalIdent (hids p (List.mem_append_left _ hp))]
  have h2 : ((s.argsCollector.map fun a => (⟨'*' :: a.data⟩ : String)).toList).filter
      isStarred = (s.argsCollector.map fun a => (⟨'*' :: a.data⟩ : String)).toList := by
    cases s.argsCollector <;> simp
  have h3 : ((s.kwargsCollector.map fun a => (⟨'*' :: '*' :: a.data⟩ : String)).toList).filter
      isStarred = (s.kwargsCollector.map fun a => (⟨'*' :: '*' :: a.data⟩ : String)).toList := by
    cases s.kwargsCollector <;> simp
  rw [h1, h2, h3, List.nil_append]

/-- On a structurally valid spec, `args_parameter` recovers the declared
`*args` collector name. -/
theorem argsParameter_PARAMETERS (s : SpecShape)
    (hids : ∀ p ∈ s.namedParams ++ s.collectorNames, isNormalIdent p = true) :
    Decorator.argsParameter s.PARAMETERS = s.argsCollector := by
  unfold Decorator.argsParameter
  rw [filter_isStarred_PARAMETERS s hids]
  cases ha : s.argsCollector with
  | none =>
    cases hk : s.kwargsCollector with
    | none => rfl
    | some k => simp [dropChars]
  | some a =>
    have hA : isNormalIdent a = true :=
      hids a (List.mem_append_right _ (by simp [SpecShape.collectorNames, ha]))
    cases hk : s.kwargsCollector with
    | none => simp [dropChars, not_isStarred_of_isNormalIdent hA]
    | some k => simp [dropChars, not_isStarred_of_isNormalIdent hA]

/-- On a structurally valid spec, `kwargs_parameter` recovers the declared
`**kwargs` collector name. -/
theorem kwargsParameter_PARAMETERS (s : SpecShape)
    (hids : ∀ p ∈ s.namedParams ++ s.collectorNames, isNormalIdent p = true) :
    Decorator.kwargsParameter s.PARAMETERS = s.kwargsCollector := by
  unfold Decorator.kwargsParameter
  rw [filter_isStarred_PARAMETERS s hids]
  cases ha : s.argsCollector with
  | none =>
    cases hk : s.kwargsCollector with
    | none => rfl
    | some k => simp [dropChars]
  | some a =>
    have hA : isNormalIdent a = true :=
      hids a (List.mem_append_right _ (by simp [SpecShape.collectorNames, ha]))
    have hne : ('*' :: a.data).take 2 ≠ ['*', '*'] := by
      cases hd : a.data with
      | nil =>
        unfold isNormalIdent at hA
        rw [hd] at hA
        exact absurd hA (by decide)
      | cons c cs =>
        have hc : c ≠ '*' := by
          unfold isNormalIdent at hA
          rw [hd] at hA
          simp only [isNormalIdentChars, Bool.and_eq_true] at hA
          exact identStart_ne_star hA.1
        simp [List.take_succ_cons, hc]
    cases hk : s.kwargsCollector with
    | none =>
      simp only [Option.map_some', Option.toList_some, Option.map_none',
        Option.toList_none, List.append_nil, List.filter_cons, List.filter_nil]
      rw [show ((⟨'*' :: a.data⟩ : String).data.take 2 == ['*', '*']) = false by
        simpa using hne]
      rfl
    | some k =>
      simp only [Option.map_some', Option.toList_some, List.cons_append,
        List.nil_append, List.filter_cons]
      rw [show ((⟨'*' :: a.data⟩ : String).data.take 2 == ['*', '*']) = false by
        simpa using hne]
      simp [dropChars]

/-- `eraseKey` yields a sublist. -/
theorem eraseKey_sublist {α : Type} (m : List (String × α)) (key : String) :
    (eraseKey m key).Sublist m := by
  induction m with
  | nil => simp
  | cons kv rest ih =>
    obtain ⟨k, v⟩ := kv
    by_cases hk : k = key
    · rw [eraseKey_cons, if_pos hk]
      exact (List.sublist_cons_self _ _)
    · rw [eraseKey_cons, if_neg hk]
      exact ih.cons₂ _

/-- `eraseKey` preserves key distinctness. -/
theorem eraseKey_nodup_keys {α : Type} {m : List (String × α)} {key : String}
    (h : (m.map Prod.fst).Nodup) : ((eraseKey m key).map Prod.fst).Nodup :=
  ((eraseKey_sublist m key).map Prod.fst).nodup h

/-- Membership of another key survives `eraseKey`, in both directions. -/
theorem mem_keys_eraseKey_iff {α : Type} (m : List (String × α)) {key k : String}
    (h : k ≠ key) :
    k ∈ (eraseKey m key).map Prod.fst ↔ k ∈ m.map Prod.fst := by
  rw [← alookup_isSome_iff, ← alookup_isSome_iff, alookup_eraseKey_of_ne m h]

/-- Erasing the head key and then filtering by the tail equals filtering by
the whole list, provided the keys are distinct. -/
theorem eraseKey_filter_eq {m : List (String × Value)} {p : String} {tl : List String}
    (hknd : (m.map Prod.fst).Nodup) :
    (eraseKey m p).filter (fun kv => !(tl.contains kv.1))
      = m.filter (fun kv => !((p :: tl).contains kv.1)) := by
  induction m with
  | nil => rfl
  | cons kv rest ih =>
    obtain ⟨k, v⟩ := kv
    simp only [List.map_cons, List.nodup_cons] at hknd
    by_cases hk : k = p
    · subst hk
      rw [eraseKey_cons, if_pos rfl]
      have hnp : ∀ kv2 ∈ rest, (!(tl.contains kv2.1)) = (!((k :: tl).contains kv2.1)) := by
        intro kv2 hkv2
        have hne : kv2.1 ≠ k := fun he => hknd.1 (he ▸ List.mem_map_of_mem Prod.fst hkv2)
        simp [List.contains, List.elem_cons, hne]
      rw [List.filter_cons, List.filter_congr hnp]
      have : ((k :: tl).contains k) = true := by simp [List.contains]
      rw [show (!((k :: tl).contains k)) = false by simp [this]]
      simp
    · rw [eraseKey_cons, if_neg hk, List.filter_cons, List.filter_cons]
      have hcontains : ((p :: tl).contains k) = (tl.contains k) := by
        simp [List.contains, List.elem_cons, hk]
      rw [hcontains, ih hknd.2]

/-- Success run of the keyword/defaults loop (`get_parameters` lines
303-313): with distinct remaining names, distinct keyword names, every
remaining name covered by `kwargs` or `DEFAULTS`, and the remaining names
unbound in the accumulator, the loop succeeds; it consumes exactly the
remaining names from `kwargs`, appends them to `params_set`, and binds each
remaining name from the original `kwargs` first and the defaults second. -/
theorem resolveRemaining_ok {D : List (String × Value)} {rest : List String}
    {acc : List (String × BoundVal)} {kwargs : List (String × Value)}
    {pset : List String}
    (hnd : rest.Nodup) (hknd : (kwargs.map Prod.fst).Nodup)
    (hcov : ∀ p ∈ rest, p ∈ kwargs.map Prod.fst ∨ p ∈ D.map Prod.fst)
    (hacc : ∀ p ∈ rest, alookup acc p = Option.none) :
    ∃ accF kwF psetF,
      Decorator.resolveRemaining D rest acc kwargs pset = .ok (accF, kwF, psetF) ∧
      kwF = kwargs.filter (fun kv => !(rest.contains kv.1)) ∧
      psetF = pset ++ rest ∧
      (∀ n, alookup accF n =
        if rest.contains n then
          (match alookup kwargs n with
           | some v => some (BoundVal.v v)
           | Option.none => (alookup D n).map BoundVal.v)
        else alookup acc n) := by
  induction rest generalizing acc kwargs pset with
  | nil =>
    refine ⟨acc, kwargs, pset, rfl, ?_, by simp, ?_⟩
    · rw [Eq.comm, List.filter_eq_self]
      intro kv _
      simp [List.contains]
    · intro n
      simp [List.contains]
  | cons p tl ih =>
    have hndtl : tl.Nodup := hnd.of_cons
    have hptl : p ∉ tl := (List.nodup_cons.mp hnd).1
    have hneq : ∀ q ∈ tl, q ≠ p := by
      intro q hq he
      subst he
      exact hptl hq
    cases hkp : alookup kwargs p with
    | some v =>
      have hstep : Decorator.resolveRemaining D (p :: tl) acc kwargs pset
          = Decorator.resolveRemaining D tl (dictSet acc p (.v v))
              (eraseKey kwargs p) (pset ++ [p]) := by
        simp only [Decorator.resolveRemaining]
        rw [hkp]
      have hknd' := @eraseKey_nodup_keys _ kwargs p hknd
      have hcov' : ∀ q ∈ tl,
          q ∈ (eraseKey kwargs p).map Prod.fst ∨ q ∈ D.map Prod.fst := by
        intro q hq
        rcases hcov q (List.mem_cons_of_mem p hq) with hk | hD
        · left
          exact (mem_keys_eraseKey_iff kwargs (hneq q hq)).mpr hk
        · right
          exact hD
      have hacc' : ∀ q ∈ tl, alookup (dictSet acc p (.v v)) q = Option.none := by
        intro q hq
        rw [alookup_dictSet_of_ne acc (hneq q hq)]
        exact hacc q (List.mem_cons_of_mem p hq)
      obtain ⟨accF, kwF, psetF, hrun, hkw, hpset, hchar⟩ :=
        ih hndtl hknd' hcov' hacc'
      refine ⟨accF, kwF, psetF, hstep.trans hrun, ?_, ?_, ?_⟩
      · rw [hkw]
        exact eraseKey_filter_eq hknd
      · rw [hpset, List.append_assoc]
        rfl
      · intro n
        rw [hchar n]
        by_cases hn : n ∈ tl
        · have h1 : tl.contains n = true := List.elem_eq_true_of_mem hn
          have h2 : (p :: tl).contains n = true := by
            simp [List.contains, List.elem_cons]
            right
            simpa [List.contains] using h1
          rw [h1, h2]
          simp only [if_true]
          rw [alookup_eraseKey_of_ne kwargs (hneq n hn)]
        · by_cases hnp : n = p
          · subst hnp
            have h1 : tl.contains n = false := by
              simpa [List.contains] using hn
            have h2 : (n :: tl).contains n = true := by
              simp [List.contains, List.elem_cons]
            rw [h1, h2]
            simp only [Bool.false_eq_true, if_false, if_true]
            rw [alookup_dictSet_self, hkp]
          · have h1 : tl.contains n = false := by
              simpa [List.contains] using hn
            have h2 : (p :: tl).contains n = false := by
              simp [List.contains, List.elem_cons, hnp]
              simpa [List.contains] using hn
            rw [h1, h2]
            simp only [Bool.false_eq_true, if_false]
            exact alookup_dictSet_of_ne acc hnp _
    | none =>
      have hpD : p ∈ D.map Prod.fst := by
        rcases hcov p (by simp) with hk | hD
        · rw [← alookup_isSome_iff, hkp] at hk
          cases hk
        · exact hD
      obtain ⟨d, hd⟩ : ∃ d, alookup D p = some d := by
        rw [← alookup_isSome_iff] at hpD
        cases hDp : alookup D p with
        | some d => exact ⟨d, rfl⟩
        | none => rw [hDp] at hpD; cases hpD
      have hstep : Decorator.resolveRemaining D (p :: tl) acc kwargs pset
          = Decorator.resolveRemaining D tl (dictSet acc p (.v d))
              kwargs (pset ++ [p]) := by
        simp only [Decorator.resolveRemaining]
        rw [hkp, hd]
      have hacc' : ∀ q ∈ tl, alookup (dictSet acc p (.v d)) q = Option.none := by
        intro q hq
        rw [alookup_dictSet_of_ne acc (hneq q hq)]
        exact hacc q (List.mem_cons_of_mem p hq)
      obtain ⟨accF, kwF, psetF, hrun, hkw, hpset, hchar⟩ :=
        ih hndtl hknd (fun q hq => hcov q (List.mem_cons_of_mem p hq)) hacc'
      refine ⟨accF, kwF, psetF, hstep.trans hrun, ?_, ?_, ?_⟩
      · rw [hkw]
        apply List.filter_congr
        intro kv hkv
        have hne : kv.1 ≠ p := by
          intro he
          have hsome : (alookup kwargs kv.1).isSome :=
            (alookup_isSome_iff kwargs kv.1).mpr (List.mem_map_of_mem Prod.fst hkv)
          rw [he, hkp] at hsome
          simp at hsome
        simp [List.contains, List.elem_cons, hne]
      · rw [hpset, List.append_assoc]
        rfl
      · intro n
        rw [hchar n]
        by_cases hn : n ∈ tl
        · have h1 : tl.contains n = true := List.elem_eq_true_of_mem hn
          have h2 : (p :: tl).contains n = true := by
            simp [List.contains, List.elem_cons]
            right
            simpa [List.contains] using h1
          rw [h1, h2]
          simp only [if_true]
        · by_cases hnp : n = p
          · subst hnp
            have h1 : tl.contains n = false := by
              simpa [List.contains] using hn
            have h2 : (n :: tl).contains n = true := by
              simp [List.contains, List.elem_cons]
            rw [h1, h2]
            simp only [Bool.false_eq_true, if_false, if_true]
            rw [alookup_dictSet_self, hkp, hd]
            rfl
          · have h1 : tl.contains n = false := by
              simpa [List.contains] using hn
            have h2 : (p :: tl).contains n = false := by
              simp [List.contains, List.elem_cons, hnp]
              simpa [List.contains] using hn
            rw [h1, h2]
            simp only [Bool.false_eq_true, if_false]
            exact alookup_dictSet_of_ne acc hnp _

/-- A remaining name supplied neither by keyword nor by a default makes the
keyword/defaults loop fail. -/
theorem resolveRemaining_err {D : List (String × Value)} {rest : List String}
    {acc : List (String × BoundVal)} {kwargs : List (String × Value)}
    {pset : List String}
    (h : ∃ p ∈ rest, p ∉ kwargs.map Prod.fst ∧ p ∉ D.map Prod.fst) :
    ∃ e, Decorator.resolveRemaining D rest acc kwargs pset = .error e := by
  induction rest generalizing acc kwargs pset with
  | nil =>
    obtain ⟨p, hp, _⟩ := h
    exact absurd hp (List.not_mem_nil p)
  | cons q tl ih =>
    obtain ⟨p, hp, hpk, hpD⟩ := h
    cases hkq : alookup kwargs q with
    | some v =>
      have hpq : p ≠ q := by
        intro he
        subst he
        exact hpk ((alookup_isSome_iff kwargs p).mp (by rw [hkq]; rfl))
      have hptl : p ∈ tl := by
        rcases List.mem_cons.mp hp with he | hm
        · exact absurd he hpq
        · exact hm
      have hpk' : p ∉ (eraseKey kwargs q).map Prod.fst := by
        rw [mem_keys_eraseKey_iff kwargs hpq]
        exact hpk
      obtain ⟨e, he⟩ := @ih (dictSet acc q (.v v))
        (eraseKey kwargs q) (pset ++ [q]) ⟨p, hptl, hpk', hpD⟩
      refine ⟨e, ?_⟩
      simp only [Decorator.resolveRemaining]
      rw [hkq]
      exact he
    | none =>
      cases hDq : alookup D q with
      | some d =>
        have hpq : p ≠ q := by
          intro he
          subst he
          exact hpD ((alookup_isSome_iff D p).mp (by rw [hDq]; rfl))
        have hptl : p ∈ tl := by
          rcases List.mem_cons.mp hp with he | hm
          · exact absurd he hpq
          · exact hm
        obtain ⟨e, he⟩ := @ih (dictSet acc q (.v d))
          kwargs (pset ++ [q]) ⟨p, hptl, hpk, hpD⟩
        refine ⟨e, ?_⟩
        simp only [Decorator.resolveRemaining]
        rw [hkq, hDq]
        exact he
      | none =>
        refine ⟨.argumentNotProvided q, ?_⟩
        simp only [Decorator.resolveRemaining]
        rw [hkq, hDq]

/-- A successful run of the keyword/defaults loop leaves entries keyed
outside the remaining names untouched and only extends `params_set`. -/
theorem resolveRemaining_preserves {D : List (String × Value)} {rest : List String}
    {acc : List (String × BoundVal)} {kwargs : List (String × Value)}
    {pset : List String}
    {out : List (String × BoundVal) × List (String × Value) × List String}
    (h : Decorator.resolveRemaining D rest acc kwargs pset = .ok out) :
    (∀ key, key ∉ rest → alookup out.2.1 key = alookup kwargs key) ∧
    (∃ suffix, out.2.2 = pset ++ suffix) := by
  induction rest generalizing acc kwargs pset with
  | nil =>
    simp only [Decorator.resolveRemaining] at h
    cases h
    exact ⟨fun key _ => rfl, [], by simp⟩
  | cons q tl ih =>
    simp only [Decorator.resolveRemaining] at h
    cases hkq : alookup kwargs q with
    | some v =>
      rw [hkq] at h
      obtain ⟨hpres, suffix, hsuf⟩ := ih h
      refine ⟨?_, [q] ++ suffix, ?_⟩
      · intro key hkey
        have hkq2 : key ≠ q := fun he => hkey (he ▸ List.mem_cons_self q tl)
        rw [hpres key (fun hm => hkey (List.mem_cons_of_mem q hm)),
          alookup_eraseKey_of_ne kwargs hkq2]
      · rw [hsuf, List.append_assoc]
    | none =>
      rw [hkq] at h
      cases hDq : alookup D q with
      | some d =>
        rw [hDq] at h
        obtain ⟨hpres, suffix, hsuf⟩ := ih h
        refine ⟨?_, [q] ++ suffix, ?_⟩
        · intro key hkey
          exact hpres key (fun hm => hkey (List.mem_cons_of_mem q hm))
        · rw [hsuf, List.append_assoc]
      | none =>
        rw [hDq] at h
        cases h

/-- On a structurally valid spec, `get_parameters` takes the following
shape-level normal form. -/
theorem get_parameters_spec_form (s : SpecShape)
    (hids : ∀ p ∈ s.namedParams ++ s.collectorNames, isNormalIdent p = true)
    (args : List Value) (kwargs : List (String × Value)) :
    Decorator.get_parameters s.PARAMETERS s.DEFAULTS args kwargs
      = (match
          (if min s.namedParams.length args.length < args.length then
            match s.argsCollector with
            | some ap =>
              Except.ok (dictSet ((s.namedParams.zip args).map
                    (fun kv => (kv.1, BoundVal.v kv.2))) ap
                  (BoundVal.varargs (args.drop (min s.namedParams.length args.length))))
            | Option.none => Except.error BindError.tooManyArguments
          else
            Except.ok ((s.namedParams.zip args).map
              (fun kv => (kv.1, BoundVal.v kv.2)))) with
        | Except.error e => Except.error e
        | Except.ok parameters1 =>
          match Decorator.resolveRemaining s.DEFAULTS
              (s.namedParams.drop (min s.namedParams.length args.length))
              parameters1 kwargs
              (s.namedParams.take (min s.namedParams.length args.length)) with
          | Except.error e => Except.error e
          | Except.ok (parameters2, kw2, pset2) =>
            if kw2.isEmpty then Except.ok parameters2
            else
              match kw2.find? (fun kv => pset2.contains kv.1) with
              | some kv => Except.error (BindError.parameterRepeated kv.1)
              | Option.none =>
                match s.kwargsCollector with
                | some kp => Except.ok (dictSet parameters2 kp (BoundVal.varkwargs kw2))
                | Option.none => Except.error BindError.tooManyArguments) := by
  simp only [Decorator.get_parameters]
  rw [paramsToSet_PARAMETERS s hids, argsParameter_PARAMETERS s hids,
    kwargsParameter_PARAMETERS s hids, erase_fold_take, zip_take_min]


/-- Membership gives a `contains` equation, on String lists. -/
theorem contains_of_mem {a : String} {l : List String} (h : a ∈ l) :
    l.contains a = true := List.elem_iff.mpr h

/-- Non-membership refutes a `contains` condition, on String lists. -/
theorem not_contains_of_not_mem {a : String} {l : List String} (h : a ∉ l) :
    ¬ (l.contains a = true) := fun hc => h (List.elem_iff.mp hc)

/-- Non-membership as a `contains = false` equation, on String lists. -/
theorem contains_eq_false_of_not_mem {a : String} {l : List String} (h : a ∉ l) :
    l.contains a = false := by
  cases hc : l.contains a
  · rfl
  · exact absurd (List.elem_iff.mp hc) h

/-- Shape-matching calls resolve successfully to the manually computed
binding. -/
theorem get_parameters_success (s : SpecShape) (args : List Value)
    (kwargs : List (String × Value)) (hv : s.Valid)
    (hknd : (kwargs.map Prod.fst).Nodup)
    (h1 : s.NoPositionalOverflow args) (h2 : s.RequiredCovered args kwargs)
    (h3 : s.NoDuplicateSupply args kwargs) (h4 : s.NoUnexpectedKwargs kwargs) :
    ∃ l, Decorator.get_parameters s.PARAMETERS s.DEFAULTS args kwargs = .ok l ∧
      ∀ n, alookup l n = s.expectedBinding args kwargs n := by
  obtain ⟨hids, hnd0⟩ := hv
  simp only [SpecShape.NoPositionalOverflow] at h1
  simp only [SpecShape.RequiredCovered] at h2
  simp only [SpecShape.NoDuplicateSupply] at h3
  simp only [SpecShape.NoUnexpectedKwargs] at h4
  have hndN : s.namedParams.Nodup := (List.nodup_append.mp hnd0).1
  have hndC : s.collectorNames.Nodup := (List.nodup_append.mp hnd0).2.1
  have hdisjNC : s.namedParams.Disjoint s.collectorNames :=
    (List.nodup_append.mp hnd0).2.2
  have hAnotin : ∀ a, s.argsCollector = some a → a ∉ s.namedParams := by
    intro a ha hmem
    exact hdisjNC hmem (by simp [SpecShape.collectorNames, ha])
  have hKnotin : ∀ kp, s.kwargsCollector = some kp → kp ∉ s.namedParams := by
    intro kp hk hmem
    exact hdisjNC hmem (by simp [SpecShape.collectorNames, hk])
  have hAKne : ∀ a kp, s.argsCollector = some a → s.kwargsCollector = some kp →
      a ≠ kp := by
    intro a kp ha hk
    have h := hndC
    simp only [SpecShape.collectorNames, ha, hk, Option.toList_some,
      List.singleton_append, List.nodup_cons] at h
    simpa using h.1
  have hzipkeys : (s.namedParams.zip args).map Prod.fst
      = s.namedParams.take (min s.namedParams.length args.length) :=
    map_fst_zip_min _ _
  have hdropnotake : ∀ n ∈ s.namedParams.drop (min s.namedParams.length args.length),
      n ∉ s.namedParams.take (min s.namedParams.length args.length) := by
    intro n hn hmem
    have h := hndN
    rw [← List.take_append_drop (min s.namedParams.length args.length)
      s.namedParams] at h
    exact (List.nodup_append.mp h).2.2 hmem hn
  have hzip_none : ∀ n,
      n ∉ s.namedParams.take (min s.namedParams.length args.length) →
      alookup (s.namedParams.zip args) n = Option.none := by
    intro n hn
    rw [alookup_eq_none_iff, hzipkeys]
    exact hn
  have hndRest : (s.namedParams.drop (min s.namedParams.length args.length)).Nodup :=
    (List.drop_sublist _ _).nodup hndN
  have hcovRest : ∀ p ∈ s.namedParams.drop (min s.namedParams.length args.length),
      p ∈ kwargs.map Prod.fst ∨ p ∈ s.DEFAULTS.map Prod.fst := by
    intro p hp
    exact h2 p hp
  rw [get_parameters_spec_form s hids args kwargs]
  have main : ∀ (parameters1 : List (String × BoundVal)),
      (∀ n, alookup parameters1 n =
        (if s.argsCollector = some n ∧ s.namedParams.length < args.length then
          some (BoundVal.varargs
            (args.drop (min s.namedParams.length args.length)))
        else (alookup (s.namedParams.zip args) n).map BoundVal.v)) →
      ∃ l,
        (match Decorator.resolveRemaining s.DEFAULTS
            (s.namedParams.drop (min s.namedParams.length args.length))
            parameters1 kwargs
            (s.namedParams.take (min s.namedParams.length args.length)) with
          | Except.error e => Except.error e
          | Except.ok (parameters2, kw2, pset2) =>
            if kw2.isEmpty then Except.ok parameters2
            else
              match kw2.find? (fun kv => pset2.contains kv.1) with
              | some kv => Except.error (BindError.parameterRepeated kv.1)
              | Option.none =>
                match s.kwargsCollector with
                | some kp =>
                  Except.ok (dictSet parameters2 kp (BoundVal.varkwargs kw2))
                | Option.none => Except.error BindError.tooManyArguments)
          = Except.ok l ∧
        ∀ n, alookup l n = s.expectedBinding args kwargs n := by
    intro parameters1 hlook1
    have hacc1 : ∀ p ∈ s.namedParams.drop (min s.namedParams.length args.length),
        alookup parameters1 p = Option.none := by
      intro p hp
      rw [hlook1 p]
      have hpA : ¬ (s.argsCollector = some p ∧
          s.namedParams.length < args.length) := by
        rintro ⟨hap, _⟩
        exact hAnotin p hap (List.drop_subset _ _ hp)
      rw [if_neg hpA, hzip_none p (hdropnotake p hp)]
      rfl
    obtain ⟨accF, kwF, psetF, hrun, hkw, hpset, hchar⟩ :=
      resolveRemaining_ok hndRest hknd hcovRest hacc1
    have hpsetN : psetF = s.namedParams := by
      rw [hpset, List.take_append_drop]
    have hkwleft : kwF = kwargs.filter (fun kv => !(s.namedParams.contains kv.1)) := by
      rw [hkw]
      apply List.filter_congr
      intro kv hkv
      show (!((s.namedParams.drop
          (min s.namedParams.length args.length)).contains kv.1))
        = (!(s.namedParams.contains kv.1))
      by_cases hmem : kv.1 ∈ s.namedParams.drop (min s.namedParams.length args.length)
      · rw [contains_of_mem hmem, contains_of_mem (List.drop_subset _ _ hmem)]
      · have hnotnamed : kv.1 ∉ s.namedParams := by
          intro hnm
          rw [← List.take_append_drop (min s.namedParams.length args.length)
            s.namedParams] at hnm
          rcases List.mem_append.mp hnm with htk | hdr
          · exact h3 kv.1 htk (List.mem_map_of_mem Prod.fst hkv)
          · exact hmem hdr
        rw [contains_eq_false_of_not_mem hmem,
          contains_eq_false_of_not_mem hnotnamed]
    have hExp : ∀ n, (s.kwargsCollector = some n →
        kwargs.filter (fun kv => !(s.namedParams.contains kv.1)) = []) →
        alookup accF n = s.expectedBinding args kwargs n := by
      intro n hside
      rw [hchar n]
      simp only [SpecShape.expectedBinding]
      by_cases hnN : n ∈ s.namedParams
      · rw [if_pos (contains_of_mem hnN)]
        by_cases hnd_k : n ∈ s.namedParams.drop (min s.namedParams.length args.length)
        · rw [if_pos (contains_of_mem hnd_k)]
          rw [hzip_none n (hdropnotake n hnd_k)]
          cases hq : alookup kwargs n with
          | some v => rfl
          | none => rfl
        · rw [if_neg (not_contains_of_not_mem hnd_k)]
          rw [hlook1 n]
          have hnA : ¬ (s.argsCollector = some n ∧
              s.namedParams.length < args.length) := fun h => hAnotin n h.1 hnN
          rw [if_neg hnA]
          have hntk : n ∈ s.namedParams.take (min s.namedParams.length args.length) := by
            rw [← List.take_append_drop (min s.namedParams.length args.length)
              s.namedParams] at hnN
            rcases List.mem_append.mp hnN with htk | hdr
            · exact htk
            · exact absurd hdr hnd_k
          have hsome : (alookup (s.namedParams.zip args) n).isSome := by
            rw [alookup_isSome_iff, hzipkeys]
            exact hntk
          cases hq : alookup (s.namedParams.zip args) n with
          | some v => rfl
          | none =>
            rw [hq] at hsome
            exact absurd hsome (by simp)
      · have hncD : n ∉ s.namedParams.drop (min s.namedParams.length args.length) :=
          fun hm => hnN (List.drop_subset _ _ hm)
        rw [if_neg (not_contains_of_not_mem hncD),
          if_neg (not_contains_of_not_mem hnN)]
        rw [hlook1 n]
        by_cases hnA : s.argsCollector = some n ∧ s.namedParams.length < args.length
        · rw [if_pos hnA, if_pos hnA, Nat.min_eq_left (Nat.le_of_lt hnA.2)]
        · rw [if_neg hnA, if_neg hnA]
          rw [hzip_none n (fun htk => hnN (List.take_subset _ _ htk))]
          rw [if_neg (fun hK => hK.2 (hside hK.1))]
          rfl
    by_cases hkemp : kwF.isEmpty = true
    · have hkFnil : kwF = [] := by
        cases hF : kwF with
        | nil => rfl
        | cons a t =>
          rw [hF] at hkemp
          exact absurd hkemp (by simp)
      subst hkFnil
      rw [hrun]
      refine ⟨accF, rfl, ?_⟩
      intro n
      exact hExp n (fun _ => hkwleft.symm)
    · have hkFne : kwF ≠ [] := fun he => hkemp (by rw [he]; rfl)
      have hfind : kwF.find? (fun kv => psetF.contains kv.1) = Option.none := by
        rw [List.find?_eq_none]
        intro kv hkv
        rw [hkwleft, List.mem_filter] at hkv
        have h5 := hkv.2
        rw [hpsetN]
        intro hc
        rw [hc] at h5
        simp at h5
      obtain ⟨kv0, hkv0⟩ : ∃ kv0, kv0 ∈ kwF := by
        cases hF : kwF with
        | nil => exact absurd hF hkFne
        | cons a t => exact ⟨a, List.mem_cons_self a t⟩
      have hkv0' := hkv0
      rw [hkwleft, List.mem_filter] at hkv0'
      have hnot0 : kv0.1 ∉ s.namedParams := by
        intro hm
        have h6 := hkv0'.2
        rw [contains_of_mem hm] at h6
        simp at h6
      obtain ⟨kp, hkp⟩ : ∃ kp, s.kwargsCollector = some kp := by
        have h7 := h4 ⟨kv0.1, List.mem_map_of_mem Prod.fst hkv0'.1, hnot0⟩
        cases hK : s.kwargsCollector with
        | some kp => exact ⟨kp, rfl⟩
        | none =>
          rw [hK] at h7
          exact absurd h7 (by simp)
      rw [hrun]
      refine ⟨dictSet accF kp (BoundVal.varkwargs kwF), ?_, ?_⟩
      · show (if kwF.isEmpty then Except.ok accF
            else
              match kwF.find? (fun kv => psetF.contains kv.1) with
              | some kv => Except.error (BindError.parameterRepeated kv.1)
              | Option.none =>
                match s.kwargsCollector with
                | some kp2 => Except.ok (dictSet accF kp2 (BoundVal.varkwargs kwF))
                | Option.none => Except.error BindError.tooManyArguments)
            = Except.ok (dictSet accF kp (BoundVal.varkwargs kwF))
        rw [if_neg hkemp, hfind, hkp]
      · intro n
        by_cases hnkp : n = kp
        · subst hnkp
          rw [alookup_dictSet_self]
          simp only [SpecShape.expectedBinding]
          rw [if_neg (not_contains_of_not_mem (hKnotin n hkp))]
          rw [if_neg (fun h => hAKne n n h.1 hkp rfl)]
          rw [if_pos ⟨hkp, fun he => hkFne (hkwleft.trans he)⟩]
          rw [hkwleft]
        · rw [alookup_dictSet_of_ne accF hnkp]
          exact hExp n
            (fun hk => absurd (Option.some.inj (hkp.symm.trans hk)).symm hnkp)
  by_cases hov : s.namedParams.length < args.length
  · obtain ⟨a, ha⟩ : ∃ a, s.argsCollector = some a := by
      rcases h1 with hle | hsome
      · omega
      · cases hA : s.argsCollector with
        | some a => exact ⟨a, rfl⟩
        | none =>
          rw [hA] at hsome
          exact absurd hsome (by simp)
    have hcond : min s.namedParams.length args.length < args.length := by omega
    rw [if_pos hcond, ha]
    refine main (dictSet ((s.namedParams.zip args).map
        (fun kv => (kv.1, BoundVal.v kv.2))) a
        (BoundVal.varargs (args.drop (min s.namedParams.length args.length)))) ?_
    intro n
    by_cases hna : n = a
    · subst hna
      rw [alookup_dictSet_self, if_pos ⟨ha, hov⟩]
    · rw [alookup_dictSet_of_ne _ hna, alookup_map_boundv,
        if_neg (fun h => hna (Option.some.inj (ha.symm.trans h.1)).symm)]
  · have hcond : ¬ min s.namedParams.length args.length < args.length := by omega
    rw [if_neg hcond]
    refine main ((s.namedParams.zip args).map
        (fun kv => (kv.1, BoundVal.v kv.2))) ?_
    intro n
    rw [alookup_map_boundv, if_neg (fun h => hov h.2)]

/-- When positional overflow is covered by a declared `*args` collector, the
positional stage of `get_parameters` succeeds with some `parameters` dict and
the run continues with the keyword/defaults loop. -/
theorem get_parameters_stage1 (s : SpecShape) (args : List Value)
    (kwargs : List (String × Value))
    (hids : ∀ p ∈ s.namedParams ++ s.collectorNames, isNormalIdent p = true)
    (hposs : s.namedParams.length < args.length → s.argsCollector.isSome = true) :
    ∃ parameters1 : List (String × BoundVal),
      Decorator.get_parameters s.PARAMETERS s.DEFAULTS args kwargs
        = (match Decorator.resolveRemaining s.DEFAULTS
            (s.namedParams.drop (min s.namedParams.length args.length))
            parameters1 kwargs
            (s.namedParams.take (min s.namedParams.length args.length)) with
          | Except.error e => Except.error e
          | Except.ok (parameters2, kw2, pset2) =>
            if kw2.isEmpty then Except.ok parameters2
            else
              match kw2.find? (fun kv => pset2.contains kv.1) with
              | some kv => Except.error (BindError.parameterRepeated kv.1)
              | Option.none =>
                match s.kwargsCollector with
                | some kp =>
                  Except.ok (dictSet parameters2 kp (BoundVal.varkwargs kw2))
                | Option.none => Except.error BindError.tooManyArguments) := by
  rw [get_parameters_spec_form s hids args kwargs]
  by_cases hov : s.namedParams.length < args.length
  · have hcond : min s.namedParams.length args.length < args.length := by omega
    rw [if_pos hcond]
    obtain ⟨a, ha⟩ : ∃ a, s.argsCollector = some a := by
      cases hA : s.argsCollector with
      | some a => exact ⟨a, rfl⟩
      | none =>
        rw [hA] at hposs
        exact absurd (hposs hov) (by simp)
    rw [ha]
    exact ⟨_, rfl⟩
  · have hcond : ¬ min s.namedParams.length args.length < args.length := by omega
    rw [if_neg hcond]
    exact ⟨_, rfl⟩

/-- Positional overflow without a declared `*args` collector raises
the too-many-arguments `TypeError` exactly. -/
theorem get_parameters_overflow_error (s : SpecShape) (args : List Value)
    (kwargs : List (String × Value))
    (hids : ∀ p ∈ s.namedParams ++ s.collectorNames, isNormalIdent p = true)
    (hov : s.namedParams.length < args.length)
    (hA : s.argsCollector = Option.none) :
    Decorator.get_parameters s.PARAMETERS s.DEFAULTS args kwargs
      = .error BindError.tooManyArguments := by
  rw [get_parameters_spec_form s hids args kwargs]
  have hcond : min s.namedParams.length args.length < args.length := by omega
  rw [if_pos hcond, hA]

/-- A named parameter neither bound positionally, nor supplied by keyword,
nor backed by a default makes the resolution fail. -/
theorem get_parameters_missing_required (s : SpecShape) (args : List Value)
    (kwargs : List (String × Value)) (hv : s.Valid)
    (h : ∃ p ∈ s.namedParams.drop (min s.namedParams.length args.length),
      p ∉ kwargs.map Prod.fst ∧ p ∉ s.optionalNames) :
    (Decorator.get_parameters s.PARAMETERS s.DEFAULTS args kwargs).isOk = false := by
  obtain ⟨p, hp, hpk, hpo⟩ := h
  by_cases hcase : s.namedParams.length < args.length ∧ s.argsCollector = Option.none
  · rw [get_parameters_overflow_error s args kwargs hv.1 hcase.1 hcase.2]
    rfl
  · have hposs : s.namedParams.length < args.length →
        s.argsCollector.isSome = true := by
      intro hov
      cases hA : s.argsCollector with
      | some a => rfl
      | none => exact absurd ⟨hov, hA⟩ hcase
    obtain ⟨parameters1, heq⟩ := get_parameters_stage1 s args kwargs hv.1 hposs
    rw [heq]
    obtain ⟨e, he⟩ := @resolveRemaining_err s.DEFAULTS
      (s.namedParams.drop (min s.namedParams.length args.length)) parameters1 kwargs
      (s.namedParams.take (min s.namedParams.length args.length))
      ⟨p, hp, hpk, hpo⟩
    rw [he]
    rfl

/-- A name bound positionally and supplied again by keyword makes the
resolution fail, for every spec and every further arguments. -/
theorem get_parameters_duplicate_supply (s : SpecShape) (args : List Value)
    (kwargs : List (String × Value)) (hv : s.Valid)
    (h : ∃ p ∈ s.namedParams.take (min s.namedParams.length args.length),
      p ∈ kwargs.map Prod.fst) :
    (Decorator.get_parameters s.PARAMETERS s.DEFAULTS args kwargs).isOk = false := by
  obtain ⟨p, hptk, hpkw⟩ := h
  have hndN : s.namedParams.Nodup := (List.nodup_append.mp hv.2).1
  have hpdrop : p ∉ s.namedParams.drop (min s.namedParams.length args.length) := by
    intro hdr
    have hN := hndN
    rw [← List.take_append_drop (min s.namedParams.length args.length)
      s.namedParams] at hN
    exact (List.nodup_append.mp hN).2.2 hptk hdr
  by_cases hcase : s.namedParams.length < args.length ∧ s.argsCollector = Option.none
  · rw [get_parameters_overflow_error s args kwargs hv.1 hcase.1 hcase.2]
    rfl
  · have hposs : s.namedParams.length < args.length →
        s.argsCollector.isSome = true := by
      intro hov
      cases hA : s.argsCollector with
      | some a => rfl
      | none => exact absurd ⟨hov, hA⟩ hcase
    obtain ⟨parameters1, heq⟩ := get_parameters_stage1 s args kwargs hv.1 hposs
    rw [heq]
    split
    next e heq2 => rfl
    next parameters2 kw2 pset2 heq2 =>
      obtain ⟨hpres, suffix, hsuf⟩ := resolveRemaining_preserves heq2
      have hkeq : alookup kw2 p = alookup kwargs p := hpres p hpdrop
      have hpsome : (alookup kw2 p).isSome := by
        rw [hkeq, alookup_isSome_iff]
        exact hpkw
      have hpk2 : p ∈ kw2.map Prod.fst := (alookup_isSome_iff kw2 p).mp hpsome
      obtain ⟨kv, hkv, hkvp⟩ := List.mem_map.mp hpk2
      have hke : kw2.isEmpty = false := by
        rcases kw2 with _ | ⟨a, t⟩
        · exact absurd hkv (List.not_mem_nil kv)
        · rfl
      rw [if_neg (fun hc => absurd (hke.symm.trans hc) Bool.false_ne_true)]
      split
      next kv3 hfind => rfl
      next hfind =>
        rw [List.find?_eq_none] at hfind
        have hsuf2 : pset2 = s.namedParams.take (min s.namedParams.length args.length)
            ++ suffix := hsuf
        have hmemp : p ∈ pset2 := by
          rw [hsuf2]
          exact List.mem_append_left _ hptk
        have hcont : pset2.contains kv.1 = true := by
          rw [hkvp]
          exact contains_of_mem hmemp
        exact absurd hcont (hfind kv hkv)

/-- A keyword argument matching no declared parameter, with no `**kwargs`
collector, makes the resolution fail. -/
theorem get_parameters_unexpected_kwarg (s : SpecShape) (args : List Value)
    (kwargs : List (String × Value)) (hv : s.Valid)
    (h : ∃ k ∈ kwargs.map Prod.fst, k ∉ s.namedParams)
    (hK : s.kwargsCollector = Option.none) :
    (Decorator.get_parameters s.PARAMETERS s.DEFAULTS args kwargs).isOk = false := by
  obtain ⟨k, hkkw, hknm⟩ := h
  by_cases hcase : s.namedParams.length < args.length ∧ s.argsCollector = Option.none
  · rw [get_parameters_overflow_error s args kwargs hv.1 hcase.1 hcase.2]
    rfl
  · have hposs : s.namedParams.length < args.length →
        s.argsCollector.isSome = true := by
      intro hov
      cases hA : s.argsCollector with
      | some a => rfl
      | none => exact absurd ⟨hov, hA⟩ hcase
    obtain ⟨parameters1, heq⟩ := get_parameters_stage1 s args kwargs hv.1 hposs
    rw [heq]
    split
    next e heq2 => rfl
    next parameters2 kw2 pset2 heq2 =>
      have hkdrop : k ∉ s.namedParams.drop (min s.namedParams.length args.length) :=
        fun hdr => hknm (List.drop_subset _ _ hdr)
      obtain ⟨hpres, suffix, hsuf⟩ := resolveRemaining_preserves heq2
      have hkeq : alookup kw2 k = alookup kwargs k := hpres k hkdrop
      have hksome : (alookup kw2 k).isSome := by
        rw [hkeq, alookup_isSome_iff]
        exact hkkw
      have hkk2 : k ∈ kw2.map Prod.fst := (alookup_isSome_iff kw2 k).mp hksome
      obtain ⟨kv, hkv, hkvk⟩ := List.mem_map.mp hkk2
      have hke : kw2.isEmpty = false := by
        rcases kw2 with _ | ⟨a, t⟩
        · exact absurd hkv (List.not_mem_nil kv)
        · rfl
      rw [if_neg (fun hc => absurd (hke.symm.trans hc) Bool.false_ne_true)]
      split
      next kv3 hfind => rfl
      next hfind =>
        rw [hK]
        rfl

/-- C5: against a structurally valid parameter spec and keyword arguments
with unique names, `get_parameters` returns exactly the manually computed
name-to-value binding (positionals matched to named parameters in
declaration order, then keywords, then defaults, with positional overflow
in the `*args` collector and keyword overflow in the `**kwargs` collector)
whenever the call matches the spec shape; and it fails exactly in the
listed cases: positional overflow without a `*args` collector (a
the too-many-arguments `TypeError`), a named parameter neither bound nor
defaulted, a parameter supplied both positionally and by keyword (this
fails for every spec and argument set), and an unexpected keyword argument
without a `**kwargs` collector. -/
theorem argument_resolution (s : SpecShape) (args : List Value)
    (kwargs : List (String × Value)) (hv : s.Valid)
    (hknd : (kwargs.map Prod.fst).Nodup) :
    ((s.NoPositionalOverflow args → s.RequiredCovered args kwargs →
        s.NoDuplicateSupply args kwargs → s.NoUnexpectedKwargs kwargs →
        ∃ l, Decorator.get_parameters s.PARAMETERS s.DEFAULTS args kwargs
            = .ok l ∧ ∀ n, alookup l n = s.expectedBinding args kwargs n)
      ∧ (s.namedParams.length < args.length → s.argsCollector = Option.none →
          Decorator.get_parameters s.PARAMETERS s.DEFAULTS args kwargs
            = .error BindError.tooManyArguments)
      ∧ ((∃ p ∈ s.namedParams.drop (min s.namedParams.length args.length),
            p ∉ kwargs.map Prod.fst ∧ p ∉ s.optionalNames) →
          (Decorator.get_parameters s.PARAMETERS s.DEFAULTS args kwargs).isOk
            = false)
      ∧ ((∃ p ∈ s.namedParams.take (min s.namedParams.length args.length),
            p ∈ kwargs.map Prod.fst) →
          (Decorator.get_parameters s.PARAMETERS s.DEFAULTS args kwargs).isOk
            = false)
      ∧ ((∃ k ∈ kwargs.map Prod.fst, k ∉ s.namedParams) →
          s.kwargsCollector = Option.none →
          (Decorator.get_parameters s.PARAMETERS s.DEFAULTS args kwargs).isOk
            = false)) := by
  refine ⟨fun h1 h2 h3 h4 => get_parameters_success s args kwargs
      ⟨hv.1, hv.2⟩ hknd h1 h2 h3 h4,
    fun hov hA => get_parameters_overflow_error s args kwargs hv.1 hov hA,
    fun h => get_parameters_missing_required s args kwargs hv h,
    fun h => get_parameters_duplicate_supply s args kwargs hv h,
    fun h hK => get_parameters_unexpected_kwarg s args kwargs hv h hK⟩

/-- Witness for C5: concrete resolutions — a spec of two required names
rejects three positionals with `TypeError` when no `*args` is declared, and
rejects a call passing `a` both positionally and by keyword. -/
theorem argument_resolution_witness :
    SpecShape.Valid ⟨["a", "b"], [], Option.none, Option.none⟩ ∧
    (([("c", Value.int 3)] : List (String × Value)).map Prod.fst).Nodup ∧
    Decorator.get_parameters
        (SpecShape.PARAMETERS ⟨["a", "b"], [], Option.none, Option.none⟩)
        (SpecShape.DEFAULTS ⟨["a", "b"], [], Option.none, Option.none⟩)
        [Value.int 1, Value.int 2, Value.int 3] [("c", Value.int 3)]
      = .error BindError.tooManyArguments ∧
    (Decorator.get_parameters
        (SpecShape.PARAMETERS ⟨["a", "b"], [], Option.none, Option.none⟩)
        (SpecShape.DEFAULTS ⟨["a", "b"], [], Option.none, Option.none⟩)
        [Value.int 1] [("a", Value.int 2)]).isOk = false :=
  ⟨by decide, by decide,
    (argument_resolution ⟨["a", "b"], [], Option.none, Option.none⟩
      [Value.int 1, Value.int 2, Value.int 3] [("c", Value.int 3)]
      (by decide) (by decide)).2.1 (by decide) rfl,
    (argument_resolution ⟨["a", "b"], [], Option.none, Option.none⟩
      [Value.int 1] [("a", Value.int 2)]
      (by decide) (by decide)).2.2.2.1 ⟨"a", by decide, by decide⟩⟩

end DjangoAuxilium
